import Mathlib

/-!
# Verification of the samply linux_shared converter core

A shallow embedding of `src/samply/src/linux_shared/mod.rs` (the record
dispatcher, stack reconstruction, off-CPU accounting, bias computation,
PE-mapping heuristic, RSS-stat handling and the process/thread registries),
together with proofs about the embedded definitions.

Machine integers (`u64`, `i64`, `i32`) are modelled as `Nat`/`Int` with
explicit `% 2^64` wrapping where the Rust code relies on wrapping semantics.
External collaborators (the framehop unwinder, the filesystem, the profile
sink) are modelled as explicit parameters/oracles, matching the trait
boundaries of the source.
-/

namespace Samply

/-- `2^64`, the modulus of Rust `u64` arithmetic. -/
def U64 : Nat := 2 ^ 64

/-- Wrapping `u64` subtraction `a.wrapping_sub b` on values `< 2^64`. -/
def wsub64 (a b : Nat) : Nat := (a + U64 - b % U64) % U64

/-- Wrapping `u64` addition. -/
def wadd64 (a b : Nat) : Nat := (a + b) % U64

/-! ## SvmaFileRange and bias computation

Embedded from `SvmaFileRange`, `encompasses_file_range`,
`is_encompassed_by_file_range` and `compute_vma_bias_impl` in
`src/samply/src/linux_shared/mod.rs`. -/

/-- A file range in an object file for which the Stated Virtual Memory
Address (SVMA) is known. Mirrors `struct SvmaFileRange`. -/
structure SvmaFileRange where
  svma : Nat
  file_offset : Nat
  size : Nat
deriving DecidableEq, Repr

/-- `SvmaFileRange::encompasses_file_range`. -/
def SvmaFileRange.encompasses_file_range (s : SvmaFileRange)
    (other_file_offset other_file_size : Nat) : Bool :=
  let self_file_range_end := wadd64 s.file_offset s.size
  let other_file_range_end := wadd64 other_file_offset other_file_size
  decide (s.file_offset ≤ other_file_offset ∧ other_file_range_end ≤ self_file_range_end)

/-- `SvmaFileRange::is_encompassed_by_file_range`. -/
def SvmaFileRange.is_encompassed_by_file_range (s : SvmaFileRange)
    (other_file_offset other_file_size : Nat) : Bool :=
  let self_file_range_end := wadd64 s.file_offset s.size
  let other_file_range_end := wadd64 other_file_offset other_file_size
  decide (other_file_offset ≤ s.file_offset ∧ self_file_range_end ≤ other_file_range_end)

/-- The reference AVMA of a contribution: `mapping_avma + (c.file_offset -
mapping_file_offset)` with the subtraction direction flipped when the
mapping's file offset is the larger one (both branches of the `if` in
`compute_vma_bias_impl`). -/
def refAvma (c : SvmaFileRange) (mapping_file_offset mapping_avma : Nat) : Nat :=
  if c.file_offset > mapping_file_offset then
    wadd64 mapping_avma (c.file_offset - mapping_file_offset)
  else
    wsub64 mapping_avma (mapping_file_offset - c.file_offset)

/-- Predicate used to pick the reference contribution in
`compute_vma_bias_impl`. -/
def biasRefMatches (mapping_file_offset mapping_size : Nat) (c : SvmaFileRange) : Bool :=
  c.encompasses_file_range mapping_file_offset mapping_size ||
  c.is_encompassed_by_file_range mapping_file_offset mapping_size

/-- `compute_vma_bias_impl` from `src/samply/src/linux_shared/mod.rs`. -/
def compute_vma_bias_impl (contributions : List SvmaFileRange)
    (mapping_file_offset mapping_avma mapping_size : Nat) : Option Nat :=
  match contributions.find? (biasRefMatches mapping_file_offset mapping_size) with
  | none => none
  | some ref_contribution =>
      let ref_avma := refAvma ref_contribution mapping_file_offset mapping_avma
      some (wsub64 ref_avma ref_contribution.svma)

/-! ## The `read_stack` closure

Embedded from the closure in `Converter::get_sample_stack`
(`src/samply/src/linux_shared/mod.rs`, lines 585-590). The copied user
stack bytes are a byte list; `RawDataU64::from_raw_data::<LittleEndian>`
views it as a sequence of 8-byte little-endian words (a trailing partial
word is not addressable). -/

/-- The number of complete 8-byte words in the byte buffer
(`RawDataU64::len`). -/
def rawDataU64Len (bytes : List Nat) : Nat := bytes.length / 8

/-- The little-endian `u64` word at byte offset `8*index`
(`RawDataU64::get`), or `none` when out of range. -/
def rawDataU64Get (bytes : List Nat) (index : Nat) : Option Nat :=
  if index < rawDataU64Len bytes then
    some (((bytes.drop (8 * index)).take 8).foldr (fun b acc => acc * 256 + b % 256) 0)
  else
    none

/-- The `read_stack` closure: `offset = addr.checked_sub(sp)?;
index = offset / 8; ustack_bytes.get(index)`. A `usize::try_from` failure
and an out-of-range index both map to the same failure value `()`. -/
def read_stack (ustack_bytes : List Nat) (sp : Nat) (addr : Nat) : Except Unit Nat :=
  match (if addr < sp then none else some (addr - sp)) with
  | none => .error ()
  | some offset =>
      match rawDataU64Get ustack_bytes (offset / 8) with
      | none => .error ()
      | some word => .ok word

/-! ## Stack reconstruction

Embedded from `Converter::get_sample_stack`
(`src/samply/src/linux_shared/mod.rs`, lines 547-625). `StackFrame` and
`StackMode` live in `crate::shared::types`, which is not part of the core
sources; they are modelled from the spec (§3: `StackFrame ∈
{ InstructionPointer(addr, mode), ReturnAddress(addr, mode),
TruncatedStackMarker }`, `mode ∈ { User, Kernel }`). The perf context
sentinel constants come from the external `linux_perf_event_reader` crate
(`PERF_CONTEXT_*` are the kernel's `-4095`, `-128`, `-512` as `u64`). -/

/-- Spec §3: the mode tag of a stack frame. -/
inductive StackMode
  | user
  | kernel
deriving DecidableEq, Repr

/-- Spec §3: a reconstructed stack frame. -/
inductive StackFrame
  | instructionPointer (addr : Nat) (mode : StackMode)
  | returnAddress (addr : Nat) (mode : StackMode)
  | truncatedStackMarker
deriving DecidableEq, Repr

/-- `PERF_CONTEXT_MAX = (-4095 as i64) as u64`. -/
def PERF_CONTEXT_MAX : Nat := U64 - 4095

/-- `PERF_CONTEXT_KERNEL = (-128 as i64) as u64`. -/
def PERF_CONTEXT_KERNEL : Nat := U64 - 128

/-- `PERF_CONTEXT_USER = (-512 as i64) as u64`. -/
def PERF_CONTEXT_USER : Nat := U64 - 512

/-- `StackMode::from_context_frame` (modelled from the spec: sentinel values
switch the current mode between user and kernel; other sentinels leave it
unchanged by mapping to `none`). -/
def StackMode.from_context_frame (addr : Nat) : Option StackMode :=
  if addr = PERF_CONTEXT_KERNEL then some .kernel
  else if addr = PERF_CONTEXT_USER then some .user
  else none

/-- A frame produced by the external framehop unwinder
(`framehop::FrameAddress`). -/
inductive FrameAddress
  | instructionPointer (addr : Nat)
  | returnAddress (addr : Nat)
deriving DecidableEq, Repr

/-- The observable behaviour of `unwinder.iter_frames(pc, regs, cache,
read_stack)` in `get_sample_stack`: the frames yielded through `Ok(Some(_))`
before the iteration ends, and whether it ended with `Err(_)` (in which case
the code appends `TruncatedStackMarker` and stops) rather than `Ok(None)`. -/
structure UnwindOutput where
  frames : List FrameAddress
  erred : Bool
deriving DecidableEq, Repr

/-- The callchain loop of `get_sample_stack` (lines 559-579): sentinel
values `≥ PERF_CONTEXT_MAX` mutate the current mode and are not emitted;
the first real frame becomes an `InstructionPointer`, later ones
`ReturnAddress`. -/
def callchainLoop : List Nat → Bool → StackMode → List StackFrame
  | [], _, _ => []
  | address :: rest, is_first_frame, mode =>
      if address ≥ PERF_CONTEXT_MAX then
        match StackMode.from_context_frame address with
        | some new_mode => callchainLoop rest is_first_frame new_mode
        | none => callchainLoop rest is_first_frame mode
      else
        (if is_first_frame then StackFrame.instructionPointer address mode
         else StackFrame.returnAddress address mode)
          :: callchainLoop rest false mode

/-- The user-stack DWARF-unwind loop of `get_sample_stack` (lines 592-612):
each produced frame is pushed in user mode; on the first unwinder error a
`TruncatedStackMarker` is pushed and the loop stops. -/
def unwindFrames (out : UnwindOutput) : List StackFrame :=
  (out.frames.map fun f =>
    match f with
    | .instructionPointer addr => StackFrame.instructionPointer addr .user
    | .returnAddress addr => StackFrame.returnAddress addr .user)
  ++ (if out.erred then [StackFrame.truncatedStackMarker] else [])

/-- The fold-recursive-prefix loop of `get_sample_stack` (lines 619-624):
capture the last frame, then pop while the element before the end equals
it. -/
def foldRecursiveStep (stack : List StackFrame) : List StackFrame :=
  match stack.getLast? with
  | none => stack
  | some last_frame =>
      (last_frame :: stack.reverse.tail.dropWhile (· == last_frame)).reverse

/-- `Converter::get_sample_stack`. The sample record's `user_regs` and
`user_stack` drive the external unwinder; their joint presence and the
unwinder's observable output are the `dwarf` parameter (`none` when either
of `e.user_regs` / `e.user_stack` is absent). `fold_flag` is the converter's
`fold_recursive_prefix` configuration field. -/
def get_sample_stack (callchain : Option (List Nat)) (cpu_mode : StackMode)
    (dwarf : Option UnwindOutput) (ip : Option Nat) (fold_flag : Bool) :
    List StackFrame :=
  let stack : List StackFrame :=
    (match callchain with
     | some chain => callchainLoop chain true cpu_mode
     | none => [])
    ++ (match dwarf with
        | some out => unwindFrames out
        | none => [])
  if stack.isEmpty then
    match ip with
    | some addr => [StackFrame.instructionPointer addr cpu_mode]
    | none => stack
  else if fold_flag then foldRecursiveStep stack
  else stack

/-! ## RSS-stat handling

Embedded from `Converter::handle_rss_stat` and `RssStat`
(`src/samply/src/linux_shared/mod.rs`, lines 404-479 and 2212-2287).
`RssStatMember` lives in `crate::shared::process_sample_data` (not part of
the core sources); it is modelled from the spec's member list. The profile
sink's `add_counter_sample` and the marker queue of `UnresolvedSamples` are
modelled as lists of records. -/

/-- `MM_FILEPAGES`: resident file mapping pages. -/
def MM_FILEPAGES : Int := 0

/-- `MM_ANONPAGES`: resident anonymous pages. -/
def MM_ANONPAGES : Int := 1

/-- `MM_SWAPENTS`: anonymous swap entries. -/
def MM_SWAPENTS : Int := 2

/-- `MM_SHMEMPAGES`: resident shared memory pages. -/
def MM_SHMEMPAGES : Int := 3

/-- The decoded `kmem:rss_stat` tracepoint payload (`struct RssStat`). -/
structure RssStat where
  common_type : Nat
  common_flags : Nat
  common_preempt_count : Nat
  common_pid : Int
  mm_id : Nat
  curr : Nat
  member : Int
  size : Int
deriving DecidableEq, Repr

/-- Spec §4.1: the tag attached to an RSS-stat marker
(`RssStatMember`, modelled from the spec's member list). -/
inductive RssStatMember
  | residentFileMappingPages
  | residentAnonymousPages
  | residentSharedMemoryPages
  | anonymousSwapEntries
deriving DecidableEq, Repr

/-- A marker queued by `add_rss_stat_marker` (thread handle, converted
timestamp, monotonic timestamp, interned stack, member tag, size, delta). -/
structure RssStatMarker where
  thread : Nat
  timestamp : Nat
  timestamp_mono : Nat
  stack : List StackFrame
  member : RssStatMember
  size : Int
  delta : Int
deriving DecidableEq, Repr

/-- A counter sample sent to the profile sink by `add_counter_sample`
(the `f64` value is exact for `|delta| < 2^53` and modelled as `Int`). -/
structure CounterSampleRec where
  timestamp : Nat
  delta : Int
  count : Nat
deriving DecidableEq, Repr

/-- The slice of per-process state that `handle_rss_stat` touches: the four
previous-size counters, the queued RSS markers, and the emitted memory
counter samples. -/
structure RssProcessState where
  prev_mm_filepages_size : Int
  prev_mm_anonpages_size : Int
  prev_mm_swapents_size : Int
  prev_mm_shmempages_size : Int
  rss_markers : List RssStatMarker
  counter_samples : List CounterSampleRec
deriving DecidableEq, Repr

/-- `Converter::handle_rss_stat` after a successful payload decode and
timestamp lookup: select the stored previous size by member (returning
unchanged for any other member), compute and store the delta, emit a
counter sample when the member is `MM_ANONPAGES`, and queue a marker with
the reconstructed stack (interned in reversed, caller-first order). -/
def handle_rss_stat (st : RssProcessState) (rss : RssStat)
    (timestamp : Nat) (timestamp_mono : Nat) (thread_handle : Nat)
    (stack : List StackFrame) : RssProcessState :=
  if rss.member = MM_FILEPAGES then
    let delta := rss.size - st.prev_mm_filepages_size
    let st := { st with prev_mm_filepages_size := rss.size }
    { st with rss_markers := st.rss_markers ++
        [⟨thread_handle, timestamp, timestamp_mono, stack.reverse,
          RssStatMember.residentFileMappingPages, rss.size, delta⟩] }
  else if rss.member = MM_ANONPAGES then
    let delta := rss.size - st.prev_mm_anonpages_size
    let st := { st with prev_mm_anonpages_size := rss.size }
    let st := { st with counter_samples := st.counter_samples ++
        [(⟨timestamp, delta, 1⟩ : CounterSampleRec)] }
    { st with rss_markers := st.rss_markers ++
        [⟨thread_handle, timestamp, timestamp_mono, stack.reverse,
          RssStatMember.residentAnonymousPages, rss.size, delta⟩] }
  else if rss.member = MM_SHMEMPAGES then
    let delta := rss.size - st.prev_mm_shmempages_size
    let st := { st with prev_mm_shmempages_size := rss.size }
    { st with rss_markers := st.rss_markers ++
        [⟨thread_handle, timestamp, timestamp_mono, stack.reverse,
          RssStatMember.residentSharedMemoryPages, rss.size, delta⟩] }
  else if rss.member = MM_SWAPENTS then
    let delta := rss.size - st.prev_mm_swapents_size
    let st := { st with prev_mm_swapents_size := rss.size }
    { st with rss_markers := st.rss_markers ++
        [⟨thread_handle, timestamp, timestamp_mono, stack.reverse,
          RssStatMember.anonymousSwapEntries, rss.size, delta⟩] }
  else
    st

/-- Whether a frame is an `InstructionPointer`. -/
def StackFrame.isIP : StackFrame → Bool
  | .instructionPointer _ _ => true
  | _ => false

/-- Whether a frame is a `ReturnAddress`. -/
def StackFrame.isRA : StackFrame → Bool
  | .returnAddress _ _ => true
  | _ => false

/-! ## Context-switch accounting

`src/samply/src/linux_shared/context_switch.rs` is declared by the core
(`mod context_switch`) but is not among the sources. The handler is
modelled from the spec (§3 thread state, §4.4 operations): per-thread state
`{ last on-CPU begin timestamp, accumulated on-CPU nanoseconds, consumed
off-CPU sampling ticks since switch-out }`; an off-CPU group reports the
full ticks elapsed since the start of the first unconsumed tick, with
`begin_ts` at that start and `end_ts` at the current record time. -/

/-- Modelled from the spec: `ContextSwitchHandler` holds the off-CPU
sampling cadence (§4.4 configuration). -/
structure ContextSwitchHandler where
  off_cpu_sampling_interval_ns : Nat
deriving DecidableEq, Repr

/-- Modelled from the spec: the scheduling state of a thread. `offCpu`
carries the start of the first off-CPU sampling tick not yet consumed
(§3: "count of elapsed off-CPU sampling ticks since switch-out",
represented by advancing the start). -/
inductive ThreadSchedState
  | unknown
  | onCpu (last_on_cpu_begin_ts : Nat)
  | offCpu (off_cpu_sampling_begin_ts : Nat)
deriving DecidableEq, Repr

/-- Modelled from the spec: `ThreadContextSwitchData` (§4.4 state). -/
structure ThreadContextSwitchData where
  sched : ThreadSchedState
  accumulated_on_cpu_ns : Nat
deriving DecidableEq, Repr

/-- `ThreadContextSwitchData::default()`. -/
def ThreadContextSwitchData.default : ThreadContextSwitchData :=
  ⟨.unknown, 0⟩

/-- `OffCpuSampleGroup` (spec §4.4). -/
structure OffCpuSampleGroup where
  begin_timestamp : Nat
  end_timestamp : Nat
  sample_count : Nat
deriving DecidableEq, Repr

/-- Modelled from the spec (§4.4 `handle_sample`): while on CPU,
accumulate the elapsed on-CPU time and restart the interval at `ts`;
while off CPU, return the group of newly completed sampling ticks, if
any, and mark them consumed. -/
def ContextSwitchHandler.handle_sample (h : ContextSwitchHandler) (ts : Nat)
    (d : ThreadContextSwitchData) :
    Option OffCpuSampleGroup × ThreadContextSwitchData :=
  match d.sched with
  | .unknown => (none, { d with sched := .onCpu ts })
  | .onCpu since =>
      (none, { sched := .onCpu ts,
               accumulated_on_cpu_ns := d.accumulated_on_cpu_ns + (ts - since) })
  | .offCpu start =>
      let ticks := (ts - start) / h.off_cpu_sampling_interval_ns
      if ticks = 0 then (none, d)
      else (some ⟨start, ts, ticks⟩,
            { d with sched :=
                .offCpu (start + ticks * h.off_cpu_sampling_interval_ns) })

/-- Modelled from the spec (§4.4 `handle_switch_in`): symmetric to
`handle_sample`, and marks the thread on CPU beginning at `ts`. -/
def ContextSwitchHandler.handle_switch_in (h : ContextSwitchHandler) (ts : Nat)
    (d : ThreadContextSwitchData) :
    Option OffCpuSampleGroup × ThreadContextSwitchData :=
  match d.sched with
  | .unknown => (none, { d with sched := .onCpu ts })
  | .onCpu _ => (none, d)
  | .offCpu start =>
      let ticks := (ts - start) / h.off_cpu_sampling_interval_ns
      ((if ticks = 0 then none else some ⟨start, ts, ticks⟩),
       { d with sched := .onCpu ts })

/-- Modelled from the spec (§4.4 `handle_switch_out`): finalise on-CPU
accumulation up to `ts` and mark the thread off CPU. -/
def ContextSwitchHandler.handle_switch_out (_h : ContextSwitchHandler)
    (ts : Nat) (d : ThreadContextSwitchData) : ThreadContextSwitchData :=
  match d.sched with
  | .unknown => { d with sched := .offCpu ts }
  | .onCpu since =>
      { sched := .offCpu ts,
        accumulated_on_cpu_ns := d.accumulated_on_cpu_ns + (ts - since) }
  | .offCpu _ => d

/-- Modelled from the spec (§4.4 `consume_cpu_delta`): return the
accumulated on-CPU nanoseconds and reset them to 0. -/
def consume_cpu_delta (d : ThreadContextSwitchData) :
    Nat × ThreadContextSwitchData :=
  (d.accumulated_on_cpu_ns, { d with accumulated_on_cpu_ns := 0 })

/-! ## Converter per-thread dispatch

Embedded from `Converter::handle_sample`, `handle_sched_switch` and
`handle_context_switch` (`src/samply/src/linux_shared/mod.rs`, lines
294-402 and 771-808), projected onto a single thread: the fields those
handlers touch are the thread's `context_switch_data`,
`last_sample_timestamp` and `off_cpu_stack`, and the owning process's
`unresolved_samples` queue (modelled as the list of `add_sample` calls).
`TimestampConverter` (`crate::shared::timestamp_converter`, not among the
sources) is modelled from the spec (§2: map monotonic source timestamps to
profile-relative timestamps); stack handles from
`UnresolvedStacks::convert` are modelled as the caller-first (reversed)
frame list itself, interning being an encoding detail. -/

/-- Modelled from the spec: profile timestamps are relative to a recorded
reference point. -/
structure TimestampConverter where
  reference_ns : Nat
deriving DecidableEq, Repr

/-- Modelled from the spec: `convert_time` maps a monotonic timestamp to a
profile-relative one. -/
def TimestampConverter.convert_time (tc : TimestampConverter) (ts : Nat) : Nat :=
  ts - tc.reference_ns

/-- `struct Thread` (`src/samply/src/linux_shared/mod.rs`, lines
1551-1562); the profile handle is an opaque number. -/
structure Thread where
  profile_thread : Nat
  context_switch_data : ThreadContextSwitchData
  last_sample_timestamp : Option Nat
  off_cpu_stack : Option (List StackFrame)
  name : Option String
deriving DecidableEq, Repr

/-- One entry of a process's `UnresolvedSamples` queue: the arguments of
one `add_sample` call. -/
structure UnresolvedSample where
  thread : Nat
  profile_ts : Nat
  timestamp : Nat
  stack : List StackFrame
  cpu_delta_ns : Nat
  weight : Int
deriving DecidableEq, Repr

/-- `i32::MAX`. -/
def I32_MAX : Nat := 2 ^ 31 - 1

/-- `process_off_cpu_sample_group` (`src/samply/src/linux_shared/mod.rs`,
lines 1342-1386): a first sample at the group's begin timestamp carrying
the consumed CPU delta with `weight = off_cpu_weight_per_sample`, and, when
`sample_count > 1`, a rest sample at the group's end timestamp with zero
CPU delta and `weight = i32::try_from(sample_count - 1).unwrap_or(0) *
off_cpu_weight_per_sample` (the raw `timestamp` field of the rest sample is
the begin timestamp, as in the source). -/
def process_off_cpu_sample_group (off_cpu_sample : OffCpuSampleGroup)
    (thread_handle : Nat) (cpu_delta_ns : Nat) (tc : TimestampConverter)
    (off_cpu_weight_per_sample : Int) (off_cpu_stack : List StackFrame)
    (samples : List UnresolvedSample) : List UnresolvedSample :=
  let samples := samples ++
    [⟨thread_handle, tc.convert_time off_cpu_sample.begin_timestamp,
      off_cpu_sample.begin_timestamp, off_cpu_stack, cpu_delta_ns,
      off_cpu_weight_per_sample⟩]
  if off_cpu_sample.sample_count > 1 then
    let weight : Int :=
      (if off_cpu_sample.sample_count - 1 ≤ I32_MAX
       then ((off_cpu_sample.sample_count - 1 : Nat) : Int)
       else 0) * off_cpu_weight_per_sample
    samples ++
      [⟨thread_handle, tc.convert_time off_cpu_sample.end_timestamp,
        off_cpu_sample.begin_timestamp, off_cpu_stack, 0, weight⟩]
  else samples

/-- The converter configuration fields used by the per-thread handlers. -/
structure ConverterConfig where
  have_context_switches : Bool
  off_cpu_weight_per_sample : Int
  context_switch_handler : ContextSwitchHandler
  timestamp_converter : TimestampConverter
  fold_flag : Bool
deriving DecidableEq, Repr

/-- The per-thread slice of the converter's mutable state. -/
structure PerThreadConverterState where
  thread : Thread
  unresolved_samples : List UnresolvedSample
deriving DecidableEq, Repr

/-- A `SampleRecord` restricted to the fields the per-thread handlers
read, with the external unwinder's behaviour as the `dwarf` component
(see `get_sample_stack`). -/
structure SampleEvent where
  timestamp : Nat
  callchain : Option (List Nat)
  cpu_mode : StackMode
  dwarf : Option UnwindOutput
  ip : Option Nat
  period : Option Nat
deriving DecidableEq, Repr

/-- `Converter::handle_sample` (lines 294-373): reconstruct the stack;
drop the record if the thread's last sample has the same timestamp;
otherwise take (and clear) any saved off-CPU stack, consume a pending
off-CPU group into synthetic samples when both are present, compute the
CPU delta (consumed on-CPU time, or the period-field fallback when the
stream has no context switches), and enqueue the sample with weight 1. -/
def Converter.handle_sample (cfg : ConverterConfig) (tid : Nat)
    (e : SampleEvent) (st : PerThreadConverterState) : PerThreadConverterState :=
  let ts := e.timestamp
  let stack := get_sample_stack e.callchain e.cpu_mode e.dwarf e.ip cfg.fold_flag
  if st.thread.last_sample_timestamp = some ts then st
  else
    let thread := { st.thread with last_sample_timestamp := some ts }
    let sg := cfg.context_switch_handler.handle_sample ts thread.context_switch_data
    let off_cpu_sample := sg.1
    let off_stack := thread.off_cpu_stack
    let thread := { thread with context_switch_data := sg.2, off_cpu_stack := none }
    let consumed : Thread × List UnresolvedSample :=
      match off_cpu_sample, off_stack with
      | some g, some s =>
          let cd := consume_cpu_delta thread.context_switch_data
          ({ thread with context_switch_data := cd.2 },
           process_off_cpu_sample_group g tid cd.1 cfg.timestamp_converter
             cfg.off_cpu_weight_per_sample s st.unresolved_samples)
      | _, _ => (thread, st.unresolved_samples)
    let thread := consumed.1
    let samples := consumed.2
    let withDelta : Nat × Thread :=
      if cfg.have_context_switches then
        let cd := consume_cpu_delta thread.context_switch_data
        (cd.1, { thread with context_switch_data := cd.2 })
      else
        match e.period with
        | some p => (p, thread)
        | none => (0, thread)
    { thread := withDelta.2,
      unresolved_samples := samples ++
        [⟨tid, cfg.timestamp_converter.convert_time ts, ts, stack.reverse,
          withDelta.1, 1⟩] }

/-- `Converter::handle_sched_switch` (lines 375-402): reconstruct the
stack and save it as the thread's off-CPU stack (the kernel-free interning
of `convert_no_kernel` is modelled as the reversed frame list). -/
def Converter.handle_sched_switch (cfg : ConverterConfig)
    (e : SampleEvent) (st : PerThreadConverterState) : PerThreadConverterState :=
  let stack := get_sample_stack e.callchain e.cpu_mode e.dwarf e.ip cfg.fold_flag
  { st with thread := { st.thread with off_cpu_stack := some stack.reverse } }

/-- The two directions of a `ContextSwitchRecord`. -/
inductive ContextSwitchRecord
  | switchIn
  | switchOut
deriving DecidableEq, Repr

/-- `Converter::handle_context_switch` (lines 771-808): on switch-in,
take (and clear) the saved off-CPU stack and consume a pending off-CPU
group into synthetic samples when both are present; on switch-out,
finalise the on-CPU accumulation. -/
def Converter.handle_context_switch (cfg : ConverterConfig) (tid : Nat)
    (dir : ContextSwitchRecord) (ts : Nat) (st : PerThreadConverterState) :
    PerThreadConverterState :=
  match dir with
  | .switchIn =>
      let sg := cfg.context_switch_handler.handle_switch_in ts
        st.thread.context_switch_data
      let off_stack := st.thread.off_cpu_stack
      let thread :=
        { st.thread with context_switch_data := sg.2, off_cpu_stack := none }
      match sg.1, off_stack with
      | some g, some s =>
          let cd := consume_cpu_delta thread.context_switch_data
          let samples := process_off_cpu_sample_group g tid cd.1
            cfg.timestamp_converter cfg.off_cpu_weight_per_sample s
            st.unresolved_samples
          { thread := { thread with context_switch_data := cd.2 },
            unresolved_samples := samples }
      | _, _ => { st with thread := thread }
  | .switchOut =>
      let csd := cfg.context_switch_handler.handle_switch_out ts
        st.thread.context_switch_data
      { st with thread := { st.thread with context_switch_data := csd } }

/-! ## Registries and name-keyed reuse pools

Embedded from `Processes` and `ProcessThreads`
(`src/samply/src/linux_shared/mod.rs`, lines 1388-1549 and 1741-1825).
`HashMap` is modelled as an association list (keys unique by construction
of the operations); `VecDeque` as a list with `push_back` appending and
`pop_front` taking the head. Profile-sink effects (end times, sample-data
flushing) are elided: they do not touch the pools. `Process` is restricted
to the fields the pool logic reads. -/

/-- `HashMap::get` on an association list. -/
def hashMapLookup {α : Type} (m : List (Int × α)) (k : Int) : Option α :=
  (m.find? fun e => e.1 == k).map (·.2)

/-- `HashMap::remove` on an association list. -/
def hashMapErase {α : Type} (m : List (Int × α)) (k : Int) : List (Int × α) :=
  m.filter fun e => !(e.1 == k)

/-- `HashMap::insert` on an association list. -/
def hashMapInsert {α : Type} (m : List (Int × α)) (k : Int) (v : α) :
    List (Int × α) :=
  hashMapErase m k ++ [(k, v)]

/-- `pool.get(name)` for the name-keyed reuse pools. -/
def poolGet {α : Type} (m : List (String × List α)) (name : String) :
    Option (List α) :=
  (m.find? fun e => e.1 == name).map (·.2)

/-- Replace the queue stored under `name`. -/
def poolSet {α : Type} (m : List (String × List α)) (name : String)
    (q : List α) : List (String × List α) :=
  m.map fun e => if e.1 == name then (e.1, q) else e

/-- `pool.remove(name)`. -/
def poolRemove {α : Type} (m : List (String × List α)) (name : String) :
    List (String × List α) :=
  m.filter fun e => !(e.1 == name)

/-- `pool.entry(name).or_default().push_back(x)`. -/
def poolPushBack {α : Type} (m : List (String × List α)) (name : String)
    (x : α) : List (String × List α) :=
  if (m.find? fun e => e.1 == name).isSome then
    m.map fun e => if e.1 == name then (e.1, e.2 ++ [x]) else e
  else m ++ [(name, [x])]

/-- The reuse-pool invariant: no name maps to an empty queue. -/
def PoolWF {α : Type} (m : List (String × List α)) : Prop :=
  ∀ e ∈ m, e.2 ≠ []

/-- `struct Process` restricted to the fields the registry's pool logic
reads: the pid (reset on reuse) and the name (the pool key). -/
structure ProcessRec where
  pid : Int
  name : Option String
deriving DecidableEq, Repr

/-- `struct Processes` restricted to the registry maps. -/
structure Processes where
  processes_by_pid : List (Int × ProcessRec)
  ended_processes_for_reuse_by_name : List (String × List ProcessRec)
  allow_reuse : Bool
deriving DecidableEq, Repr

/-- `Processes::attempt_reuse` (lines 1414-1430). The outer `none` models
the `expect("We only have non-empty VecDeques in this HashMap")` firing on
`pop_front`; `some (ps, r)` is the normal return with `r` the reused
process, if any. When popping empties the queue, the map entry is
removed. -/
def Processes.attempt_reuse (ps : Processes) (pid : Int) (name : String) :
    Option (Processes × Option ProcessRec) :=
  if (hashMapLookup ps.processes_by_pid pid).isSome then some (ps, none)
  else
    match poolGet ps.ended_processes_for_reuse_by_name name with
    | none => some (ps, none)
    | some [] => none
    | some (p :: rest) =>
        let pool :=
          if rest.isEmpty then
            poolRemove ps.ended_processes_for_reuse_by_name name
          else poolSet ps.ended_processes_for_reuse_by_name name rest
        let p := { p with pid := pid }
        some ({ ps with
                  processes_by_pid := hashMapInsert ps.processes_by_pid pid p,
                  ended_processes_for_reuse_by_name := pool },
              some p)

/-- `Processes::remove` (lines 1483-1512), restricted to the registry
maps: drop the live entry and, when reuse is allowed and the process has a
name, park it in the pool. -/
def Processes.remove (ps : Processes) (pid : Int) : Processes :=
  match hashMapLookup ps.processes_by_pid pid with
  | none => ps
  | some process =>
      let ps :=
        { ps with processes_by_pid := hashMapErase ps.processes_by_pid pid }
      if ps.allow_reuse then
        match process.name with
        | some name =>
            { ps with ended_processes_for_reuse_by_name :=
                poolPushBack ps.ended_processes_for_reuse_by_name name process }
        | none => ps
      else ps

/-- `Thread::on_remove` (lines 1565-1569). -/
def Thread.on_remove (t : Thread) : Thread :=
  { t with context_switch_data := ThreadContextSwitchData.default,
           last_sample_timestamp := none,
           off_cpu_stack := none }

/-- `struct ProcessThreads` restricted to the registry maps. -/
structure ProcessThreads where
  pid : Int
  main_thread : Thread
  threads_by_tid : List (Int × Thread)
  ended_threads_for_reuse_by_name : List (String × List Thread)
deriving DecidableEq, Repr

/-- `ProcessThreads::attempt_thread_reuse` (lines 1763-1777), the thread
analogue of `Processes::attempt_reuse` (`Thread::reset_for_reuse` is a
no-op). -/
def ProcessThreads.attempt_thread_reuse (pt : ProcessThreads) (tid : Int)
    (name : String) : Option (ProcessThreads × Option Thread) :=
  if (hashMapLookup pt.threads_by_tid tid).isSome then some (pt, none)
  else
    match poolGet pt.ended_threads_for_reuse_by_name name with
    | none => some (pt, none)
    | some [] => none
    | some (t :: rest) =>
        let pool :=
          if rest.isEmpty then
            poolRemove pt.ended_threads_for_reuse_by_name name
          else poolSet pt.ended_threads_for_reuse_by_name name rest
        some ({ pt with
                  threads_by_tid := hashMapInsert pt.threads_by_tid tid t,
                  ended_threads_for_reuse_by_name := pool },
              some t)

/-- `ProcessThreads::remove_non_main_thread` (lines 1804-1824), restricted
to the registry maps. -/
def ProcessThreads.remove_non_main_thread (pt : ProcessThreads) (tid : Int)
    (allow_reuse : Bool) : ProcessThreads :=
  match hashMapLookup pt.threads_by_tid tid with
  | none => pt
  | some thread =>
      let pt := { pt with threads_by_tid := hashMapErase pt.threads_by_tid tid }
      let thread := thread.on_remove
      if allow_reuse then
        match thread.name with
        | some name =>
            { pt with ended_threads_for_reuse_by_name :=
                poolPushBack pt.ended_threads_for_reuse_by_name name thread }
        | none => pt
      else pt

/-- The loop body of `ProcessThreads::prepare_for_reuse`: call `on_remove`
and park the thread in the pool when it has a name. -/
def parkThread (pool : List (String × List Thread)) (e : Int × Thread) :
    List (String × List Thread) :=
  let t := e.2.on_remove
  match t.name with
  | some name => poolPushBack pool name t
  | none => pool

/-- `ProcessThreads::prepare_for_reuse` (lines 1750-1761): drain the
non-main threads, parking each named one in the pool. -/
def ProcessThreads.prepare_for_reuse (pt : ProcessThreads) : ProcessThreads :=
  { pt with
      threads_by_tid := [],
      ended_threads_for_reuse_by_name :=
        pt.threads_by_tid.foldl parkThread pt.ended_threads_for_reuse_by_name }

/-! ## Per-thread record streams

A per-thread trace of the records the converter dispatches for one
thread, and the invariant used to bound CPU deltas. -/

/-- One record of a per-thread stream. -/
inductive ThreadEvent
  | sample (e : SampleEvent)
  | schedSwitch (e : SampleEvent)
  | contextSwitch (dir : ContextSwitchRecord) (ts : Nat)
deriving Repr

/-- The timestamp carried by a record. -/
def ThreadEvent.timestamp : ThreadEvent → Nat
  | .sample e => e.timestamp
  | .schedSwitch e => e.timestamp
  | .contextSwitch _ ts => ts

/-- Dispatch one record (the per-thread projection of the converter's
dispatch site). -/
def stepThread (cfg : ConverterConfig) (tid : Nat)
    (st : PerThreadConverterState) : ThreadEvent → PerThreadConverterState
  | .sample e => Converter.handle_sample cfg tid e st
  | .schedSwitch e => Converter.handle_sched_switch cfg e st
  | .contextSwitch dir ts => Converter.handle_context_switch cfg tid dir ts st

/-- Dispatch a whole per-thread stream. -/
def runThread (cfg : ConverterConfig) (tid : Nat)
    (st : PerThreadConverterState) (evs : List ThreadEvent) :
    PerThreadConverterState :=
  evs.foldl (stepThread cfg tid) st

/-- A well-formed per-thread stream starting no earlier than `now`:
timestamps are monotone, and sampling records only arrive while the thread
is not off CPU (a CPU sample cannot fire on a descheduled thread). -/
def validFrom (cfg : ConverterConfig) (tid : Nat) (now : Nat)
    (st : PerThreadConverterState) : List ThreadEvent → Bool
  | [] => true
  | ev :: rest =>
      decide (now ≤ ev.timestamp) &&
      (match ev, st.thread.context_switch_data.sched with
       | .sample _, .offCpu _ => false
       | _, _ => true) &&
      validFrom cfg tid ev.timestamp (stepThread cfg tid st ev) rest

/-- The claim's bound between consecutive samples of one thread:
`cpu_delta ≤ profile_ts − prev_profile_ts` (the delta is a `Nat`, hence
`0 ≤ cpu_delta` is inherent). -/
def sampleBound (a b : UnresolvedSample) : Prop :=
  a.profile_ts + b.cpu_delta_ns ≤ b.profile_ts

/-- The profile timestamp of the last enqueued sample (0 when none). -/
def lastP (samples : List UnresolvedSample) : Nat :=
  (samples.getLast?.map (·.profile_ts)).getD 0

/-- The scheduling part of the CPU-delta invariant: the accumulated on-CPU
time fits between the last enqueued sample and the current interval
start. -/
def schedInv (cfg : ConverterConfig) (st : PerThreadConverterState)
    (now : Nat) : Prop :=
  match st.thread.context_switch_data.sched with
  | .unknown => st.thread.context_switch_data.accumulated_on_cpu_ns = 0
  | .onCpu since =>
      cfg.timestamp_converter.reference_ns ≤ since ∧ since ≤ now ∧
      lastP st.unresolved_samples +
          st.thread.context_switch_data.accumulated_on_cpu_ns +
          cfg.timestamp_converter.reference_ns ≤ since
  | .offCpu start =>
      cfg.timestamp_converter.reference_ns ≤ start ∧ start ≤ now ∧
      lastP st.unresolved_samples +
          st.thread.context_switch_data.accumulated_on_cpu_ns +
          cfg.timestamp_converter.reference_ns ≤ start

/-- The CPU-delta invariant: consecutive enqueued samples satisfy the
bound, the last enqueued sample is not in the future, and the scheduling
state is consistent. -/
def ConvInv (cfg : ConverterConfig) (st : PerThreadConverterState)
    (now : Nat) : Prop :=
  st.unresolved_samples.Chain' sampleBound ∧
  lastP st.unresolved_samples + cfg.timestamp_converter.reference_ns ≤ now ∧
  cfg.timestamp_converter.reference_ns ≤ now ∧
  schedInv cfg st now

/-! ## Suspected-PE mappings and module binary resolution

Embedded from `SuspectedPeMapping` and the file-resolution part of
`Converter::add_module_to_process`
(`src/samply/src/linux_shared/mod.rs`, lines 171-177, 1061-1102,
1168-1183 and 1294-1325). The `BTreeMap<u64, SuspectedPeMapping>` is
modelled as a key-sorted association list (the map's documented invariant
is that the key equals the value's `start` field). The filesystem and
object parsing are oracles: `openable path` models
`open_file_with_fallback` (and the subsequent mmap and parse) succeeding,
`bias` the result of `compute_vma_bias` on the opened file and `base_svma`
its relative address base. Build-id verification and the jitdump /
`-fixed.so` rewriting are orthogonal to this path and elided. -/

/-- `struct SuspectedPeMapping` (the path bytes as a string). -/
structure SuspectedPeMapping where
  path : String
  start : Nat
  size : Nat
deriving DecidableEq, Repr

/-- `self.suspected_pe_mappings.range(..=mapping_start_avma).next_back()`:
the entry with the largest key `≤ k` (the last such entry of the key-sorted
association list). -/
def btreeLastLE (m : List (Nat × SuspectedPeMapping)) (k : Nat) :
    Option SuspectedPeMapping :=
  match m with
  | [] => none
  | e :: rest =>
      if e.1 ≤ k then
        match btreeLastLE rest k with
        | some r => some r
        | none => some e.2
      else btreeLastLE rest k

/-- The lookup plus the containment filter of lines 1083-1092:
`mapping_start_avma >= m.start && mapping_start_avma + mapping_size <=
m.start + m.size`. -/
def find_suspected_pe_mapping (m : List (Nat × SuspectedPeMapping))
    (mapping_start_avma mapping_size : Nat) : Option SuspectedPeMapping :=
  (btreeLastLE m mapping_start_avma).filter fun pm =>
    decide (mapping_start_avma ≥ pm.start) &&
      decide (wadd64 mapping_start_avma mapping_size ≤ wadd64 pm.start pm.size)

/-- How `add_module_to_process` ends up identifying the mapping's binary. -/
inductive ModuleBinary
  | fromFile (path : String) (base_avma : Nat)
  | fabricated (base_avma : Nat)
  | skipped
deriving DecidableEq, Repr

/-- The binary decision together with the `suspected_pe_mapping` variable
of `add_module_to_process`. -/
structure AddModuleOutcome where
  binary : ModuleBinary
  suspected : Option SuspectedPeMapping
deriving DecidableEq, Repr

/-- The file-resolution and base-address logic of
`add_module_to_process`: open the mapping's own path; on failure consult
the suspected-PE map and, when the containing entry's file opens, use that
file with `base_avma` forced to the entry's start; with a file but no PE
override, `base_avma = base_svma.wrapping_add(bias)` (skipping the mapping
when the bias cannot be computed); with no file at all, fabricate
`base_avma = mapping_start_avma - mapping_start_file_offset`. -/
def add_module_resolution (openable : String → Bool) (bias : Option Nat)
    (base_svma : Nat) (own_path : String)
    (pe_map : List (Nat × SuspectedPeMapping))
    (mapping_start_file_offset mapping_start_avma mapping_size : Nat) :
    AddModuleOutcome :=
  if openable own_path then
    { binary :=
        match bias with
        | some b => ModuleBinary.fromFile own_path (wadd64 base_svma b)
        | none => ModuleBinary.skipped,
      suspected := none }
  else
    match find_suspected_pe_mapping pe_map mapping_start_avma mapping_size with
    | some pm =>
        if openable pm.path then
          { binary := ModuleBinary.fromFile pm.path pm.start,
            suspected := some pm }
        else
          { binary := ModuleBinary.fabricated
              (wsub64 mapping_start_avma mapping_start_file_offset),
            suspected := some pm }
    | none =>
        { binary := ModuleBinary.fabricated
            (wsub64 mapping_start_avma mapping_start_file_offset),
          suspected := none }

/-! ## Theorems -/

/-- `List.find?` returns the head of the first match when the list splits
into a prefix of non-matches followed by a match. -/
theorem find?_append_first {α : Type} (p : α → Bool) (pre : List α) (c : α)
    (post : List α) (hpre : ∀ c' ∈ pre, p c' = false) (hc : p c = true) :
    List.find? p (pre ++ c :: post) = some c := by
  induction pre with
  | nil => simpa using List.find?_cons_of_pos post hc
  | cons a l ih =>
      have ha : p a = false := hpre a (List.mem_cons_self a l)
      rw [List.cons_append, List.find?_cons_of_neg _ (by simp [ha])]
      exact ih fun c' hc' => hpre c' (List.mem_cons_of_mem a hc')

/-- C3: `compute_vma_bias_impl` returns `some bias` iff some contribution
either fully contains or is fully contained by the mapping's file range;
the reference is the first such contribution, `ref_avma` is
`avma + (ref.file_offset − mapping.file_offset)` with the subtraction
flipped when the mapping's offset is larger, and the bias is
`ref_avma.wrapping_sub(ref.svma)` (mod 2^64); otherwise it returns `none`.
For segments `[{svma=0, off=0, size=0x1000}, {svma=0x2000, off=0x1000,
size=0x1000}]` and mapping `{off=0x1000, avma=0x55f000, size=0x1000}` the
result is `some 0x55d000`. -/
theorem compute_vma_bias_impl_spec
    (contributions : List SvmaFileRange) (mfo avma msize : Nat) :
    ((compute_vma_bias_impl contributions mfo avma msize).isSome ↔
      ∃ c ∈ contributions,
        (c.encompasses_file_range mfo msize ||
         c.is_encompassed_by_file_range mfo msize) = true)
    ∧ (∀ pre c post, contributions = pre ++ c :: post →
        (∀ c' ∈ pre, biasRefMatches mfo msize c' = false) →
        biasRefMatches mfo msize c = true →
        compute_vma_bias_impl contributions mfo avma msize =
          some (wsub64 (refAvma c mfo avma) c.svma))
    ∧ compute_vma_bias_impl [⟨0, 0, 0x1000⟩, ⟨0x2000, 0x1000, 0x1000⟩]
        0x1000 0x55f000 0x1000 = some 0x55d000 := by
  refine ⟨?_, ?_, by decide⟩
  · have key : (compute_vma_bias_impl contributions mfo avma msize).isSome =
        (contributions.find? (biasRefMatches mfo msize)).isSome := by
      unfold compute_vma_bias_impl
      cases contributions.find? (biasRefMatches mfo msize) <;> simp
    rw [key, List.find?_isSome]
    simp [biasRefMatches]
  · intro pre c post hsplit hpre hc
    unfold compute_vma_bias_impl
    rw [hsplit, find?_append_first _ pre c post hpre hc]

/-- Witness for C3: the concrete call from the spec's fixture, obtained by
applying the first-match clause of the theorem at explicit inputs. -/
theorem compute_vma_bias_impl_spec_witness :
    compute_vma_bias_impl [⟨0, 0, 0x1000⟩, ⟨0x2000, 0x1000, 0x1000⟩]
        0x1000 0x55f000 0x1000 =
      some (wsub64 (refAvma ⟨0x2000, 0x1000, 0x1000⟩ 0x1000 0x55f000) 0x2000) :=
  (compute_vma_bias_impl_spec _ 0x1000 0x55f000 0x1000).2.1
    [⟨0, 0, 0x1000⟩] ⟨0x2000, 0x1000, 0x1000⟩ [] rfl (by decide) (by decide)

/-- C8: the `read_stack` closure is a total function that fails exactly when
`addr < sp` or when `(addr − sp) / 8` is not a valid word index into the
copied user-stack buffer, and otherwise returns the 8-byte little-endian
word at that index. -/
theorem read_stack_total_spec (bytes : List Nat) (sp addr : Nat) :
    (read_stack bytes sp addr = .error () ↔
      addr < sp ∨ rawDataU64Len bytes ≤ (addr - sp) / 8)
    ∧ (sp ≤ addr → (addr - sp) / 8 < rawDataU64Len bytes →
        read_stack bytes sp addr =
          .ok (((bytes.drop (8 * ((addr - sp) / 8))).take 8).foldr
                (fun b acc => acc * 256 + b % 256) 0)) := by
  by_cases h : addr < sp
  · refine ⟨by simp [read_stack, h], fun hle => absurd h (by omega)⟩
  · by_cases h2 : (addr - sp) / 8 < rawDataU64Len bytes
    · refine ⟨?_, fun _ _ => by simp [read_stack, h, rawDataU64Get, h2]⟩
      simp [read_stack, h, rawDataU64Get, h2]
    · refine ⟨?_, fun _ hlt => absurd hlt h2⟩
      simp [read_stack, h, rawDataU64Get, h2]
      omega

/-- Witness for C8: reading the word at the stack pointer of an 8-byte
buffer holding the little-endian word 1. -/
theorem read_stack_total_spec_witness :
    read_stack [1, 0, 0, 0, 0, 0, 0, 0] 16 16 = .ok 1 := by
  have h := (read_stack_total_spec [1, 0, 0, 0, 0, 0, 0, 0] 16 16).2
    (by decide) (by decide)
  simpa using h

/-- In the callchain loop, every frame after the first real one is a
`ReturnAddress`, whatever the sentinel-driven mode changes. -/
theorem callchainLoop_false_ra (chain : List Nat) :
    ∀ (mode : StackMode) (f : StackFrame),
      f ∈ callchainLoop chain false mode → f.isRA = true := by
  induction chain with
  | nil => intro mode f hf; simp [callchainLoop] at hf
  | cons a rest ih =>
      intro mode f hf
      rw [callchainLoop] at hf
      by_cases hs : a ≥ PERF_CONTEXT_MAX
      · rw [if_pos hs] at hf
        cases hsc : StackMode.from_context_frame a with
        | none => rw [hsc] at hf; exact ih mode f hf
        | some m => rw [hsc] at hf; exact ih m f hf
      · rw [if_neg hs] at hf
        rcases List.mem_cons.mp hf with h | h
        · subst h; rfl
        · exact ih mode f h

/-- The callchain part of the stack is empty or an `InstructionPointer`
followed only by `ReturnAddress` frames. -/
theorem callchainLoop_true_shape (chain : List Nat) :
    ∀ mode : StackMode,
      callchainLoop chain true mode = [] ∨
        ∃ a m tl, callchainLoop chain true mode =
            StackFrame.instructionPointer a m :: tl ∧
          ∀ f ∈ tl, f.isRA = true := by
  induction chain with
  | nil => intro mode; left; rfl
  | cons a rest ih =>
      intro mode
      rw [callchainLoop]
      by_cases hs : a ≥ PERF_CONTEXT_MAX
      · rw [if_pos hs]
        cases hsc : StackMode.from_context_frame a with
        | none => exact ih mode
        | some m => exact ih m
      · rw [if_neg hs]
        right
        exact ⟨a, mode, callchainLoop rest false mode, rfl,
          fun f hf => callchainLoop_false_ra rest mode f hf⟩

/-- When every callchain entry is a real address, the non-first frames are
exactly the entries as `ReturnAddress` frames in order. -/
theorem callchainLoop_false_map (chain : List Nat) (mode : StackMode)
    (h : ∀ x ∈ chain, x < PERF_CONTEXT_MAX) :
    callchainLoop chain false mode =
      chain.map fun r => StackFrame.returnAddress r mode := by
  induction chain with
  | nil => rfl
  | cons a rest ih =>
      have ha : a < PERF_CONTEXT_MAX := h a (List.mem_cons_self a rest)
      rw [callchainLoop, if_neg (by omega)]
      simp [ih fun x hx => h x (List.mem_cons_of_mem a hx)]

/-- Dropping the leading repetitions of `L` from the tail keeps a suffix. -/
theorem cons_dropWhile_beq_suffix (L : StackFrame) (t : List StackFrame) :
    L :: t.dropWhile (· == L) <:+ L :: t := by
  induction t with
  | nil => exact List.suffix_refl _
  | cons x t' ih =>
      by_cases hx : x = L
      · subst hx
        rw [List.dropWhile_cons_of_pos (by simp)]
        exact ih.trans ⟨[x], rfl⟩
      · rw [List.dropWhile_cons_of_neg (by simp [hx])]

/-- Reversed form of `cons_dropWhile_beq_suffix`. -/
theorem reverse_cons_dropWhile_prefix (L : StackFrame) (r : List StackFrame) :
    (L :: r.dropWhile (· == L)).reverse <+: (L :: r).reverse :=
  List.reverse_prefix.mpr (cons_dropWhile_beq_suffix L r)

/-- The fold-recursive-prefix step removes only repeated frames from the
end of the stack: its result is a prefix of its input. -/
theorem foldRecursiveStep_prefix (stack : List StackFrame) :
    foldRecursiveStep stack <+: stack := by
  rcases hL : stack.getLast? with _ | L
  · simp only [foldRecursiveStep, hL]
    exact List.prefix_refl _
  · cases hr : stack.reverse with
    | nil =>
        have hnil : stack = [] := by
          have h := congrArg List.reverse hr
          simpa using h
        rw [hnil] at hL
        simp at hL
    | cons y ys =>
        have hy : y = L := by
          have h := List.head?_reverse stack
          rw [hr, hL] at h
          simpa using h
        subst hy
        simp only [foldRecursiveStep, hL]
        have htail : stack.reverse.tail = ys := by rw [hr]; rfl
        rw [htail]
        have h2 : stack = (y :: ys).reverse := by
          rw [← hr, List.reverse_reverse]
        conv_rhs => rw [h2]
        exact reverse_cons_dropWhile_prefix y ys

/-- The fold step never empties a non-empty stack. -/
theorem foldRecursiveStep_ne_nil (stack : List StackFrame) (h : stack ≠ []) :
    foldRecursiveStep stack ≠ [] := by
  rcases hL : stack.getLast? with _ | L
  · simpa only [foldRecursiveStep, hL] using h
  · simp only [foldRecursiveStep, hL]
    simp

/-- With the fold enabled, `get_sample_stack` returns a prefix of what it
returns with the fold disabled. -/
theorem get_sample_stack_fold_prefix (callchain : Option (List Nat))
    (cpu_mode : StackMode) (dwarf : Option UnwindOutput) (ip : Option Nat) :
    get_sample_stack callchain cpu_mode dwarf ip true <+:
      get_sample_stack callchain cpu_mode dwarf ip false := by
  unfold get_sample_stack
  by_cases hb : (((match callchain with
      | some chain => callchainLoop chain true cpu_mode
      | none => []) ++ (match dwarf with
      | some out => unwindFrames out
      | none => [])) : List StackFrame).isEmpty
  · rw [if_pos hb, if_pos hb]
  · rw [if_neg hb, if_neg hb, if_pos rfl]
    exact foldRecursiveStep_prefix _

/-- A frame that satisfies `isRA` does not satisfy `isIP` and is not the
truncation marker. -/
theorem isRA_not_isIP (f : StackFrame) (h : f.isRA = true) :
    f.isIP = false ∧ f ≠ StackFrame.truncatedStackMarker := by
  cases f <;> simp_all [StackFrame.isRA, StackFrame.isIP]

/-- Shape of the DWARF-unwind portion under the framehop contract (the
first produced frame is the instruction pointer, the rest are return
addresses). -/
theorem unwindFrames_props (out : UnwindOutput) (a : Nat)
    (tl : List FrameAddress)
    (hfr : out.frames = FrameAddress.instructionPointer a :: tl)
    (htl : ∀ f ∈ tl, ∃ r, f = FrameAddress.returnAddress r) :
    ∃ rest, unwindFrames out = StackFrame.instructionPointer a .user :: rest ∧
      (∀ f ∈ rest, f.isRA = true ∨ f = StackFrame.truncatedStackMarker) ∧
      (StackFrame.truncatedStackMarker ∈ rest → out.erred = true) ∧
      rest.filter StackFrame.isIP = [] := by
  refine ⟨(tl.map fun f => match f with
      | .instructionPointer x => StackFrame.instructionPointer x .user
      | .returnAddress x => StackFrame.returnAddress x .user)
    ++ (if out.erred then [StackFrame.truncatedStackMarker] else []), ?_, ?_, ?_, ?_⟩
  · rw [unwindFrames, hfr]; rfl
  · intro f hf
    rcases List.mem_append.mp hf with h | h
    · rcases List.mem_map.mp h with ⟨g, hg, hmap⟩
      rcases htl g hg with ⟨r, hr⟩
      subst hr
      left; rw [← hmap]; rfl
    · by_cases he : out.erred
      · rw [if_pos he] at h; right; simpa using h
      · rw [if_neg he] at h; simp at h
  · intro hmem
    rcases List.mem_append.mp hmem with h | h
    · rcases List.mem_map.mp h with ⟨g, hg, hmap⟩
      rcases htl g hg with ⟨r, hr⟩
      subst hr
      simp at hmap
    · by_cases he : out.erred
      · exact he
      · rw [if_neg he] at h; simp at h
  · rw [List.filter_append]
    have h1 : (tl.map fun f => match f with
        | FrameAddress.instructionPointer x => StackFrame.instructionPointer x .user
        | FrameAddress.returnAddress x => StackFrame.returnAddress x .user).filter
          StackFrame.isIP = [] := by
      rw [List.filter_eq_nil_iff]
      intro f hf
      rcases List.mem_map.mp hf with ⟨g, hg, hmap⟩
      rcases htl g hg with ⟨r, hr⟩
      subst hr
      rw [← hmap]
      simp [StackFrame.isIP]
    have h2 : (if out.erred then [StackFrame.truncatedStackMarker] else []).filter
        StackFrame.isIP = [] := by
      by_cases he : out.erred <;> simp [he, StackFrame.isIP]
    rw [h1, h2]; rfl

/-- Shape properties of a concatenated kernel-callchain part and
DWARF-unwind part. -/
theorem stack_concat_props (cc dw : List StackFrame) (E : Prop)
    (hcc : cc = [] ∨ ∃ a m tl, cc = StackFrame.instructionPointer a m :: tl ∧
        ∀ f ∈ tl, f.isRA = true)
    (hdw : dw = [] ∨ ∃ a rest,
        dw = StackFrame.instructionPointer a StackMode.user :: rest ∧
        (∀ f ∈ rest, f.isRA = true ∨ f = StackFrame.truncatedStackMarker) ∧
        (StackFrame.truncatedStackMarker ∈ rest → E) ∧
        rest.filter StackFrame.isIP = []) :
    (∀ f, (cc ++ dw).head? = some f → f.isIP = true)
    ∧ (StackFrame.truncatedStackMarker ∈ cc ++ dw → E)
    ∧ (∀ f ∈ (cc ++ dw).drop 1,
        f.isRA = true ∨ f = StackFrame.truncatedStackMarker ∨
          ∃ a, f = StackFrame.instructionPointer a StackMode.user)
    ∧ (((cc ++ dw).drop 1).filter StackFrame.isIP).length ≤ 1 := by
  rcases hcc with hcc | ⟨a, m, tl, hcc, htl⟩
  · subst hcc
    rcases hdw with hdw | ⟨b, rest, hdw, hrest, hmark, hfil⟩
    · subst hdw
      refine ⟨?_, ?_, ?_, ?_⟩ <;> simp
    · subst hdw
      refine ⟨?_, ?_, ?_, ?_⟩
      · intro f hf
        simp at hf
        subst hf
        rfl
      · intro hm
        simp at hm
        exact hmark hm
      · intro f hf
        simp at hf
        rcases hrest f hf with h | h
        · exact Or.inl h
        · exact Or.inr (Or.inl h)
      · simp [hfil]
  · subst hcc
    have hfil2 : tl.filter StackFrame.isIP = [] := by
      rw [List.filter_eq_nil_iff]
      intro f hf
      simp [(isRA_not_isIP f (htl f hf)).1]
    rcases hdw with hdw | ⟨b, rest, hdw, hrest, hmark, hfil⟩
    · subst hdw
      refine ⟨?_, ?_, ?_, ?_⟩
      · intro f hf
        simp at hf
        subst hf
        rfl
      · intro hm
        simp at hm
        exact absurd rfl (isRA_not_isIP _ (htl _ hm)).2
      · intro f hf
        simp at hf
        exact Or.inl (htl f hf)
      · simp [hfil2]
    · subst hdw
      refine ⟨?_, ?_, ?_, ?_⟩
      · intro f hf
        simp at hf
        subst hf
        rfl
      · intro hm
        simp at hm
        rcases hm with hm | hm
        · exact absurd rfl (isRA_not_isIP _ (htl _ hm)).2
        · exact hmark hm
      · intro f hf
        simp at hf
        rcases hf with hf | hf | hf
        · exact Or.inl (htl f hf)
        · exact Or.inr (Or.inr ⟨b, hf⟩)
        · rcases hrest f hf with h | h
          · exact Or.inl h
          · exact Or.inr (Or.inl h)
      · simp [List.filter_append, hfil2, hfil, StackFrame.isIP]

/-- The four shape properties of `get_sample_stack` with the fold
disabled. -/
theorem get_sample_stack_false_props (callchain : Option (List Nat))
    (cpu_mode : StackMode) (dwarf : Option UnwindOutput) (ip : Option Nat)
    (hfh : ∀ out, dwarf = some out →
      ∃ a tl, out.frames = FrameAddress.instructionPointer a :: tl ∧
        ∀ f ∈ tl, ∃ r, f = FrameAddress.returnAddress r) :
    (∀ f, (get_sample_stack callchain cpu_mode dwarf ip false).head? = some f →
        f.isIP = true)
    ∧ (StackFrame.truncatedStackMarker ∈
          get_sample_stack callchain cpu_mode dwarf ip false →
        ∃ out, dwarf = some out ∧ out.erred = true)
    ∧ (∀ f ∈ (get_sample_stack callchain cpu_mode dwarf ip false).drop 1,
        f.isRA = true ∨ f = StackFrame.truncatedStackMarker ∨
          ∃ a, f = StackFrame.instructionPointer a StackMode.user)
    ∧ (((get_sample_stack callchain cpu_mode dwarf ip false).drop 1).filter
        StackFrame.isIP).length ≤ 1 := by
  cases dwarf with
  | none =>
      cases callchain with
      | none =>
          cases ip with
          | none => refine ⟨?_, ?_, ?_, ?_⟩ <;> simp [get_sample_stack]
          | some addr =>
              refine ⟨?_, ?_, ?_, ?_⟩ <;> simp [get_sample_stack, StackFrame.isIP]
      | some chain =>
          rcases callchainLoop_true_shape chain cpu_mode with hemp | ⟨a, m, tl, hsh, htl⟩
          · cases ip with
            | none => refine ⟨?_, ?_, ?_, ?_⟩ <;> simp [get_sample_stack, hemp]
            | some addr =>
                refine ⟨?_, ?_, ?_, ?_⟩ <;>
                  simp [get_sample_stack, hemp, StackFrame.isIP]
          · have hS : get_sample_stack (some chain) cpu_mode none ip false =
                StackFrame.instructionPointer a m :: tl := by
              simp [get_sample_stack, hsh]
            have hprops := stack_concat_props
              (StackFrame.instructionPointer a m :: tl) []
              (∃ out, (none : Option UnwindOutput) = some out ∧ out.erred = true)
              (Or.inr ⟨a, m, tl, rfl, htl⟩) (Or.inl rfl)
            simpa [hS] using hprops
  | some out =>
      obtain ⟨b, tlf, hfr, htlf⟩ := hfh out rfl
      obtain ⟨rest, hrw, hrest, hmark, hfil⟩ := unwindFrames_props out b tlf hfr htlf
      have hmark2 : StackFrame.truncatedStackMarker ∈ rest →
          ∃ o, (some out : Option UnwindOutput) = some o ∧ o.erred = true :=
        fun h => ⟨out, rfl, hmark h⟩
      cases callchain with
      | none =>
          have hS : get_sample_stack none cpu_mode (some out) ip false =
              StackFrame.instructionPointer b StackMode.user :: rest := by
            simp [get_sample_stack, hrw]
          have hprops := stack_concat_props []
            (StackFrame.instructionPointer b StackMode.user :: rest)
            (∃ o, (some out : Option UnwindOutput) = some o ∧ o.erred = true)
            (Or.inl rfl) (Or.inr ⟨b, rest, rfl, hrest, hmark2, hfil⟩)
          simpa [hS] using hprops
      | some chain =>
          rcases callchainLoop_true_shape chain cpu_mode with hemp | ⟨a, m, tl, hsh, htl⟩
          · have hS : get_sample_stack (some chain) cpu_mode (some out) ip false =
                StackFrame.instructionPointer b StackMode.user :: rest := by
              simp [get_sample_stack, hemp, hrw]
            have hprops := stack_concat_props []
              (StackFrame.instructionPointer b StackMode.user :: rest)
              (∃ o, (some out : Option UnwindOutput) = some o ∧ o.erred = true)
              (Or.inl rfl) (Or.inr ⟨b, rest, rfl, hrest, hmark2, hfil⟩)
            simpa [hS] using hprops
          · have hS : get_sample_stack (some chain) cpu_mode (some out) ip false =
                StackFrame.instructionPointer a m ::
                  (tl ++ StackFrame.instructionPointer b StackMode.user :: rest) := by
              simp [get_sample_stack, hsh, hrw]
            have hprops := stack_concat_props
              (StackFrame.instructionPointer a m :: tl)
              (StackFrame.instructionPointer b StackMode.user :: rest)
              (∃ o, (some out : Option UnwindOutput) = some o ∧ o.erred = true)
              (Or.inr ⟨a, m, tl, rfl, htl⟩)
              (Or.inr ⟨b, rest, rfl, hrest, hmark2, hfil⟩)
            simpa [hS] using hprops

/-- Counterexample to C4 as stated: a sample with both a kernel callchain
and a DWARF user unwind yields an `InstructionPointer` as its second frame
(the start of the user portion), so not every subsequent frame is a
`ReturnAddress`. -/
theorem get_sample_stack_second_frame_not_ra :
    (get_sample_stack (some [0x1000]) StackMode.kernel
        (some ⟨[FrameAddress.instructionPointer 0x2000,
                FrameAddress.returnAddress 0x3000], false⟩) none false) =
      [StackFrame.instructionPointer 0x1000 StackMode.kernel,
       StackFrame.instructionPointer 0x2000 StackMode.user,
       StackFrame.returnAddress 0x3000 StackMode.user]
    ∧ (get_sample_stack (some [0x1000]) StackMode.kernel
        (some ⟨[FrameAddress.instructionPointer 0x2000,
                FrameAddress.returnAddress 0x3000], false⟩) none false).get? 1 =
      some (StackFrame.instructionPointer 0x2000 StackMode.user)
    ∧ StackFrame.isRA (StackFrame.instructionPointer 0x2000 StackMode.user) = false := by
  refine ⟨by decide, by decide, rfl⟩

/-- C4 (amended): for every record and fold setting, under the framehop
contract (the unwinder's first produced frame, when any, is the
instruction pointer and the rest are return addresses), the reconstructed
stack's first frame is an `InstructionPointer`; every later frame is a
`ReturnAddress`, or the truncation marker, or the single user-mode
`InstructionPointer` that starts the DWARF-unwound user portion (at most
one such later frame exists); and a `TruncatedStackMarker` occurs only
when the unwinder iteration failed. -/
theorem get_sample_stack_shape (callchain : Option (List Nat))
    (cpu_mode : StackMode) (dwarf : Option UnwindOutput) (ip : Option Nat)
    (b : Bool)
    (hfh : ∀ out, dwarf = some out →
      ∃ a tl, out.frames = FrameAddress.instructionPointer a :: tl ∧
        ∀ f ∈ tl, ∃ r, f = FrameAddress.returnAddress r) :
    (∀ f, (get_sample_stack callchain cpu_mode dwarf ip b).head? = some f →
        f.isIP = true)
    ∧ (StackFrame.truncatedStackMarker ∈
          get_sample_stack callchain cpu_mode dwarf ip b →
        ∃ out, dwarf = some out ∧ out.erred = true)
    ∧ (∀ f ∈ (get_sample_stack callchain cpu_mode dwarf ip b).drop 1,
        f.isRA = true ∨ f = StackFrame.truncatedStackMarker ∨
          ∃ a, f = StackFrame.instructionPointer a StackMode.user)
    ∧ (((get_sample_stack callchain cpu_mode dwarf ip b).drop 1).filter
        StackFrame.isIP).length ≤ 1 := by
  obtain ⟨B1, B2, B3, B4⟩ := get_sample_stack_false_props callchain cpu_mode dwarf ip hfh
  cases b with
  | false => exact ⟨B1, B2, B3, B4⟩
  | true =>
      have hpre := get_sample_stack_fold_prefix callchain cpu_mode dwarf ip
      refine ⟨?_, ?_, ?_, ?_⟩
      · intro f hf
        apply B1 f
        obtain ⟨t, ht⟩ := hpre
        cases hS : get_sample_stack callchain cpu_mode dwarf ip true with
        | nil => rw [hS] at hf; simp at hf
        | cons x xs =>
            rw [hS] at hf
            simp only [List.head?_cons, Option.some.injEq] at hf
            rw [← ht, hS, List.cons_append]
            simp [hf]
      · intro hm
        exact B2 (hpre.sublist.subset hm)
      · intro f hf
        exact B3 f (((hpre.drop 1).sublist).subset hf)
      · exact le_trans (((hpre.drop 1).sublist.filter StackFrame.isIP).length_le) B4

/-- Witness for C4 (amended): the head-frame clause applied at a concrete
single-entry user callchain with no unwinder data. -/
theorem get_sample_stack_shape_witness :
    StackFrame.isIP (StackFrame.instructionPointer 0x1000 StackMode.user) = true :=
  (get_sample_stack_shape (some [0x1000]) StackMode.user none none false
      (fun _ h => by cases h)).1
    (StackFrame.instructionPointer 0x1000 StackMode.user) (by decide)

/-- C5: for a user-mode sample whose callchain holds only real addresses
(no sentinels), with no DWARF data and the fold disabled, the reconstructed
stack equals the callchain element for element: frame 0 is the
`InstructionPointer`, every later frame a `ReturnAddress`, all in user
mode. -/
theorem get_sample_stack_round_trip (a : Nat) (rest : List Nat) (ip : Option Nat)
    (hlt : ∀ x ∈ a :: rest, x < PERF_CONTEXT_MAX) :
    get_sample_stack (some (a :: rest)) StackMode.user none ip false =
      StackFrame.instructionPointer a StackMode.user ::
        rest.map fun r => StackFrame.returnAddress r StackMode.user := by
  have ha := hlt a (List.mem_cons_self a rest)
  have hrest := callchainLoop_false_map rest StackMode.user
    fun x hx => hlt x (List.mem_cons_of_mem a hx)
  have hneg : ¬ (a ≥ PERF_CONTEXT_MAX) := by omega
  simp only [get_sample_stack]
  rw [callchainLoop, if_neg hneg, hrest]
  simp

/-- Witness for C5: the round trip at the concrete callchain
`[0x1000, 0x2000]`. -/
theorem get_sample_stack_round_trip_witness :
    get_sample_stack (some [0x1000, 0x2000]) StackMode.user none none false =
      [StackFrame.instructionPointer 0x1000 StackMode.user,
       StackFrame.returnAddress 0x2000 StackMode.user] := by
  have h := get_sample_stack_round_trip 0x1000 [0x2000] none (by decide)
  simpa using h

/-- C9: an RSS-stat record whose decoded member is outside `{0, 1, 2, 3}`
is ignored: no marker is queued, no counter sample is emitted, and the four
stored previous sizes are unchanged. For a member in `{0, 1, 2, 3}` a
marker tagged by that member is queued with the delta against the stored
previous size (which is updated), and a counter sample is emitted iff the
member is `MM_ANONPAGES` (1). -/
theorem handle_rss_stat_spec (st : RssProcessState) (rss : RssStat)
    (ts tsm th : Nat) (stack : List StackFrame) :
    ((rss.member < 0 ∨ 3 < rss.member) →
        handle_rss_stat st rss ts tsm th stack = st)
    ∧ (rss.member = 0 → handle_rss_stat st rss ts tsm th stack =
        { st with prev_mm_filepages_size := rss.size,
                  rss_markers := st.rss_markers ++
                    [⟨th, ts, tsm, stack.reverse,
                      RssStatMember.residentFileMappingPages,
                      rss.size, rss.size - st.prev_mm_filepages_size⟩] })
    ∧ (rss.member = 1 → handle_rss_stat st rss ts tsm th stack =
        { st with prev_mm_anonpages_size := rss.size,
                  counter_samples := st.counter_samples ++
                    [⟨ts, rss.size - st.prev_mm_anonpages_size, 1⟩],
                  rss_markers := st.rss_markers ++
                    [⟨th, ts, tsm, stack.reverse,
                      RssStatMember.residentAnonymousPages,
                      rss.size, rss.size - st.prev_mm_anonpages_size⟩] })
    ∧ (rss.member = 2 → handle_rss_stat st rss ts tsm th stack =
        { st with prev_mm_swapents_size := rss.size,
                  rss_markers := st.rss_markers ++
                    [⟨th, ts, tsm, stack.reverse,
                      RssStatMember.anonymousSwapEntries,
                      rss.size, rss.size - st.prev_mm_swapents_size⟩] })
    ∧ (rss.member = 3 → handle_rss_stat st rss ts tsm th stack =
        { st with prev_mm_shmempages_size := rss.size,
                  rss_markers := st.rss_markers ++
                    [⟨th, ts, tsm, stack.reverse,
                      RssStatMember.residentSharedMemoryPages,
                      rss.size, rss.size - st.prev_mm_shmempages_size⟩] }) := by
  refine ⟨?_, ?_, ?_, ?_, ?_⟩
  · intro h
    have hn0 : rss.member ≠ 0 := by omega
    have hn1 : rss.member ≠ 1 := by omega
    have hn2 : rss.member ≠ 2 := by omega
    have hn3 : rss.member ≠ 3 := by omega
    simp [handle_rss_stat, MM_FILEPAGES, MM_ANONPAGES, MM_SWAPENTS,
      MM_SHMEMPAGES, hn0, hn1, hn2, hn3]
  · intro h
    simp [handle_rss_stat, MM_FILEPAGES, MM_ANONPAGES, MM_SWAPENTS,
      MM_SHMEMPAGES, h]
  · intro h
    simp [handle_rss_stat, MM_FILEPAGES, MM_ANONPAGES, MM_SWAPENTS,
      MM_SHMEMPAGES, h]
  · intro h
    simp [handle_rss_stat, MM_FILEPAGES, MM_ANONPAGES, MM_SWAPENTS,
      MM_SHMEMPAGES, h]
  · intro h
    simp [handle_rss_stat, MM_FILEPAGES, MM_ANONPAGES, MM_SWAPENTS,
      MM_SHMEMPAGES, h]

/-- Witness for C9: member 5 is ignored at a concrete state. -/
theorem handle_rss_stat_spec_witness :
    handle_rss_stat ⟨0, 0, 0, 0, [], []⟩ ⟨0, 0, 0, 0, 0, 0, 5, 100⟩ 7 8 9 [] =
      ⟨0, 0, 0, 0, [], []⟩ :=
  (handle_rss_stat_spec ⟨0, 0, 0, 0, [], []⟩ ⟨0, 0, 0, 0, 0, 0, 5, 100⟩
      7 8 9 []).1 (Or.inr (by decide))

/-- Pushing onto a pool keeps every queue non-empty. -/
theorem poolPushBack_wf {α : Type} (m : List (String × List α)) (name : String)
    (x : α) (h : PoolWF m) : PoolWF (poolPushBack m name x) := by
  unfold poolPushBack
  by_cases hfind : (m.find? fun e => e.1 == name).isSome = true
  · rw [if_pos hfind]
    intro e he
    rcases List.mem_map.mp he with ⟨e', he', hmap⟩
    by_cases hk : (e'.1 == name) = true
    · rw [if_pos hk] at hmap
      rw [← hmap]
      simp
    · rw [if_neg hk] at hmap
      rw [← hmap]
      exact h e' he'
  · rw [if_neg hfind]
    intro e he
    rcases List.mem_append.mp he with he | he
    · exact h e he
    · simp at he
      rw [he]
      simp

/-- Replacing a queue by a non-empty one keeps every queue non-empty. -/
theorem poolSet_wf {α : Type} (m : List (String × List α)) (name : String)
    (q : List α) (h : PoolWF m) (hq : q ≠ []) : PoolWF (poolSet m name q) := by
  intro e he
  simp only [poolSet] at he
  rcases List.mem_map.mp he with ⟨e', he', hmap⟩
  by_cases hk : (e'.1 == name) = true
  · rw [if_pos hk] at hmap
    rw [← hmap]
    exact hq
  · rw [if_neg hk] at hmap
    rw [← hmap]
    exact h e' he'

/-- Removing an entry keeps every remaining queue non-empty. -/
theorem poolRemove_wf {α : Type} (m : List (String × List α)) (name : String)
    (h : PoolWF m) : PoolWF (poolRemove m name) := by
  intro e he
  exact h e (List.mem_of_mem_filter he)

/-- Under the invariant, a successful pool lookup yields a non-empty
queue: the `expect` on `pop_front` cannot fire. -/
theorem poolGet_wf {α : Type} (m : List (String × List α)) (name : String)
    (q : List α) (h : PoolWF m) (hg : poolGet m name = some q) : q ≠ [] := by
  simp only [poolGet] at hg
  rcases Option.map_eq_some'.mp hg with ⟨e, hfind, he2⟩
  rw [← he2]
  exact h e (List.mem_of_find?_eq_some hfind)

/-- Folding `parkThread` over any thread list preserves the invariant. -/
theorem parkThread_foldl_wf (l : List (Int × Thread))
    (pool : List (String × List Thread)) (h : PoolWF pool) :
    PoolWF (l.foldl parkThread pool) := by
  induction l generalizing pool with
  | nil => exact h
  | cons e l ih =>
      rw [List.foldl_cons]
      rcases hn : e.2.on_remove.name with _ | name
      · have hstep : parkThread pool e = pool := by
          simp [parkThread, hn]
        rw [hstep]
        exact ih pool h
      · have hstep : parkThread pool e = poolPushBack pool name e.2.on_remove := by
          simp [parkThread, hn]
        rw [hstep]
        exact ih _ (poolPushBack_wf pool name _ h)

/-- C10: the name-keyed reuse pools never map a name to an empty queue.
Every insertion (`Processes::remove`, `ProcessThreads::prepare_for_reuse`,
`ProcessThreads::remove_non_main_thread`) preserves the invariant, and
under the invariant `attempt_reuse` / `attempt_thread_reuse` always return
normally (the `expect` on `pop_front` cannot fire), removing the map entry
whenever popping empties its queue, which preserves the invariant. -/
theorem reuse_pools_never_empty :
    (∀ (ps : Processes) (pid : Int),
        PoolWF ps.ended_processes_for_reuse_by_name →
        PoolWF (Processes.remove ps pid).ended_processes_for_reuse_by_name)
    ∧ (∀ (ps : Processes) (pid : Int) (name : String),
        PoolWF ps.ended_processes_for_reuse_by_name →
        ∃ ps' r, Processes.attempt_reuse ps pid name = some (ps', r) ∧
          PoolWF ps'.ended_processes_for_reuse_by_name)
    ∧ (∀ (pt : ProcessThreads) (tid : Int) (alr : Bool),
        PoolWF pt.ended_threads_for_reuse_by_name →
        PoolWF (ProcessThreads.remove_non_main_thread pt tid
          alr).ended_threads_for_reuse_by_name)
    ∧ (∀ (pt : ProcessThreads), PoolWF pt.ended_threads_for_reuse_by_name →
        PoolWF pt.prepare_for_reuse.ended_threads_for_reuse_by_name)
    ∧ (∀ (pt : ProcessThreads) (tid : Int) (name : String),
        PoolWF pt.ended_threads_for_reuse_by_name →
        ∃ pt' r, ProcessThreads.attempt_thread_reuse pt tid name =
            some (pt', r) ∧
          PoolWF pt'.ended_threads_for_reuse_by_name) := by
  refine ⟨?_, ?_, ?_, ?_, ?_⟩
  · intro ps pid h
    rcases hlk : hashMapLookup ps.processes_by_pid pid with _ | process
    · simp only [Processes.remove, hlk]
      exact h
    · simp only [Processes.remove, hlk]
      by_cases ha : ps.allow_reuse = true
      · rcases hn : process.name with _ | name
        · simp only [hn, ha, if_true]
          exact h
        · simp only [hn, ha, if_true]
          exact poolPushBack_wf _ name process h
      · simp only [ha, if_false, Bool.false_eq_true]
        exact h
  · intro ps pid name h
    by_cases hlive : (hashMapLookup ps.processes_by_pid pid).isSome = true
    · exact ⟨ps, none, by simp [Processes.attempt_reuse, hlive], h⟩
    · rcases hg : poolGet ps.ended_processes_for_reuse_by_name name with _ | q
      · exact ⟨ps, none, by simp [Processes.attempt_reuse, hlive, hg], h⟩
      · cases q with
        | nil => exact absurd rfl (poolGet_wf _ _ _ h hg)
        | cons p rest =>
            by_cases hrest : rest.isEmpty = true
            · refine ⟨{ ps with
                  processes_by_pid :=
                    hashMapInsert ps.processes_by_pid pid { p with pid := pid },
                  ended_processes_for_reuse_by_name :=
                    poolRemove ps.ended_processes_for_reuse_by_name name },
                some { p with pid := pid }, ?_, ?_⟩
              · simp [Processes.attempt_reuse, hlive, hg, hrest]
              · exact poolRemove_wf _ name h
            · refine ⟨{ ps with
                  processes_by_pid :=
                    hashMapInsert ps.processes_by_pid pid { p with pid := pid },
                  ended_processes_for_reuse_by_name :=
                    poolSet ps.ended_processes_for_reuse_by_name name rest },
                some { p with pid := pid }, ?_, ?_⟩
              · simp [Processes.attempt_reuse, hlive, hg, hrest]
              · exact poolSet_wf _ name rest h (by simpa using hrest)
  · intro pt tid alr h
    rcases hlk : hashMapLookup pt.threads_by_tid tid with _ | thread
    · simp only [ProcessThreads.remove_non_main_thread, hlk]
      exact h
    · simp only [ProcessThreads.remove_non_main_thread, hlk]
      by_cases ha : alr = true
      · rcases hn : thread.on_remove.name with _ | name
        · simp only [hn, ha, if_true]
          exact h
        · simp only [hn, ha, if_true]
          exact poolPushBack_wf _ name thread.on_remove h
      · rw [if_neg ha]
        exact h
  · intro pt h
    simp only [ProcessThreads.prepare_for_reuse]
    exact parkThread_foldl_wf pt.threads_by_tid pt.ended_threads_for_reuse_by_name h
  · intro pt tid name h
    by_cases hlive : (hashMapLookup pt.threads_by_tid tid).isSome = true
    · exact ⟨pt, none, by simp [ProcessThreads.attempt_thread_reuse, hlive], h⟩
    · rcases hg : poolGet pt.ended_threads_for_reuse_by_name name with _ | q
      · exact ⟨pt, none,
          by simp [ProcessThreads.attempt_thread_reuse, hlive, hg], h⟩
      · cases q with
        | nil => exact absurd rfl (poolGet_wf _ _ _ h hg)
        | cons t rest =>
            by_cases hrest : rest.isEmpty = true
            · refine ⟨{ pt with
                  threads_by_tid := hashMapInsert pt.threads_by_tid tid t,
                  ended_threads_for_reuse_by_name :=
                    poolRemove pt.ended_threads_for_reuse_by_name name },
                some t, ?_, ?_⟩
              · simp [ProcessThreads.attempt_thread_reuse, hlive, hg, hrest]
              · exact poolRemove_wf _ name h
            · refine ⟨{ pt with
                  threads_by_tid := hashMapInsert pt.threads_by_tid tid t,
                  ended_threads_for_reuse_by_name :=
                    poolSet pt.ended_threads_for_reuse_by_name name rest },
                some t, ?_, ?_⟩
              · simp [ProcessThreads.attempt_thread_reuse, hlive, hg, hrest]
              · exact poolSet_wf _ name rest h (by simpa using hrest)

/-- `process_off_cpu_sample_group` only appends to the samples queue. -/
theorem process_off_cpu_sample_group_append (g : OffCpuSampleGroup)
    (th cpu_delta_ns : Nat) (tc : TimestampConverter) (w : Int)
    (stack : List StackFrame) (samples : List UnresolvedSample) :
    ∃ X, process_off_cpu_sample_group g th cpu_delta_ns tc w stack samples =
      samples ++ X := by
  by_cases hc : g.sample_count > 1
  · refine ⟨[⟨th, tc.convert_time g.begin_timestamp, g.begin_timestamp, stack,
        cpu_delta_ns, w⟩,
      ⟨th, tc.convert_time g.end_timestamp, g.begin_timestamp, stack, 0,
        (if g.sample_count - 1 ≤ I32_MAX
         then ((g.sample_count - 1 : Nat) : Int) else 0) * w⟩], ?_⟩
    simp only [process_off_cpu_sample_group]
    rw [if_pos hc, List.append_assoc]
    rfl
  · refine ⟨[⟨th, tc.convert_time g.begin_timestamp, g.begin_timestamp, stack,
        cpu_delta_ns, w⟩], ?_⟩
    simp only [process_off_cpu_sample_group]
    rw [if_neg hc]

/-- Counterexample to C2 as stated: for a group with `sample_count =
2^31 + 1` and weight-per-sample 1, the emitted rest-sample weight is 0
(the `i32::try_from(...).unwrap_or(0)` saturation), not
`(sample_count − 1) × 1 = 2^31`. -/
theorem process_off_cpu_sample_group_weight_counterexample :
    (process_off_cpu_sample_group ⟨0, 5, 2 ^ 31 + 1⟩ 1 0 ⟨0⟩ 1 [] []).map
        (fun s => s.weight) = [1, 0]
    ∧ ((2 ^ 31 + 1 : Int) - 1) * 1 = 2 ^ 31
    ∧ (2 ^ 31 : Int) ≠ 0 :=
  ⟨by decide, by decide, by decide⟩

/-- C2 (amended): a non-empty off-CPU group with a saved stack produces
exactly one synthetic sample when `sample_count = 1` (at the group's begin
timestamp, carrying the just-consumed CPU delta, with
`weight = off_cpu_weight_per_sample`), and exactly two when
`sample_count > 1`: the second at the group's end timestamp with zero CPU
delta and `weight = (sample_count − 1) × off_cpu_weight_per_sample` when
`sample_count − 1` fits in `i32`, and weight 0 otherwise. On a switch-in
that returns a group while a saved off-CPU stack is present, the converter
emits exactly these samples with the just-consumed on-CPU delta. -/
theorem process_off_cpu_sample_group_spec (g : OffCpuSampleGroup)
    (th cpu_delta_ns : Nat) (tc : TimestampConverter) (w : Int)
    (stack : List StackFrame) (samples : List UnresolvedSample) :
    (g.sample_count = 1 →
      process_off_cpu_sample_group g th cpu_delta_ns tc w stack samples =
        samples ++ [⟨th, tc.convert_time g.begin_timestamp,
          g.begin_timestamp, stack, cpu_delta_ns, w⟩])
    ∧ (1 < g.sample_count → g.sample_count - 1 ≤ I32_MAX →
      process_off_cpu_sample_group g th cpu_delta_ns tc w stack samples =
        samples ++
          [⟨th, tc.convert_time g.begin_timestamp, g.begin_timestamp, stack,
            cpu_delta_ns, w⟩,
           ⟨th, tc.convert_time g.end_timestamp, g.begin_timestamp, stack, 0,
            ((g.sample_count - 1 : Nat) : Int) * w⟩])
    ∧ (I32_MAX < g.sample_count - 1 →
      process_off_cpu_sample_group g th cpu_delta_ns tc w stack samples =
        samples ++
          [⟨th, tc.convert_time g.begin_timestamp, g.begin_timestamp, stack,
            cpu_delta_ns, w⟩,
           ⟨th, tc.convert_time g.end_timestamp, g.begin_timestamp, stack,
            0, 0⟩])
    ∧ (∀ (cfg : ConverterConfig) (tid ts : Nat)
          (st : PerThreadConverterState) (g2 : OffCpuSampleGroup)
          (s : List StackFrame),
        (cfg.context_switch_handler.handle_switch_in ts
            st.thread.context_switch_data).1 = some g2 →
        st.thread.off_cpu_stack = some s →
        (Converter.handle_context_switch cfg tid ContextSwitchRecord.switchIn
            ts st).unresolved_samples =
          process_off_cpu_sample_group g2 tid
            (consume_cpu_delta (cfg.context_switch_handler.handle_switch_in ts
              st.thread.context_switch_data).2).1
            cfg.timestamp_converter cfg.off_cpu_weight_per_sample s
            st.unresolved_samples) := by
  refine ⟨?_, ?_, ?_, ?_⟩
  · intro h
    simp [process_off_cpu_sample_group, h]
  · intro h1 h2
    simp [process_off_cpu_sample_group, h1, h2]
  · intro h
    have h1 : g.sample_count > 1 := by omega
    have h2 : ¬ (g.sample_count - 1 ≤ I32_MAX) := by omega
    simp [process_off_cpu_sample_group, h1, h2]
  · intro cfg tid ts st g2 s hg hs
    simp only [Converter.handle_context_switch, hg, hs]

/-- Witness for C2 (amended): a one-tick group at concrete inputs. -/
theorem process_off_cpu_sample_group_spec_witness :
    process_off_cpu_sample_group ⟨100, 200, 1⟩ 3 42 ⟨0⟩ 1 [] [] =
      [⟨3, 100, 100, [], 42, 1⟩] := by
  have h := (process_off_cpu_sample_group_spec ⟨100, 200, 1⟩ 3 42 ⟨0⟩ 1 [] []).1 rfl
  simpa [TimestampConverter.convert_time] using h

/-- A sample record whose timestamp equals the thread's last sample
timestamp is dropped without touching any state. -/
theorem handle_sample_ignores_duplicate (cfg : ConverterConfig) (tid : Nat)
    (e : SampleEvent) (st : PerThreadConverterState)
    (h : st.thread.last_sample_timestamp = some e.timestamp) :
    Converter.handle_sample cfg tid e st = st := by
  simp [Converter.handle_sample, h]

/-- A non-duplicate sample records its timestamp as the thread's last
sample timestamp. -/
theorem handle_sample_sets_last_sample_timestamp (cfg : ConverterConfig)
    (tid : Nat) (e : SampleEvent) (st : PerThreadConverterState)
    (h : ¬ st.thread.last_sample_timestamp = some e.timestamp) :
    (Converter.handle_sample cfg tid e st).thread.last_sample_timestamp =
      some e.timestamp := by
  simp only [Converter.handle_sample]
  rw [if_neg h]
  split <;> (try split) <;> (try split) <;> rfl

/-- A non-duplicate sample appends exactly one sample for this record to
the queue — at the converted timestamp, with the reconstructed stack
(interned caller-first) and weight 1 — after whatever the off-CPU
consumption appended. -/
theorem handle_sample_unresolved_shape (cfg : ConverterConfig) (tid : Nat)
    (e : SampleEvent) (st : PerThreadConverterState)
    (h : ¬ st.thread.last_sample_timestamp = some e.timestamp) :
    ∃ base delta,
      (Converter.handle_sample cfg tid e st).unresolved_samples =
        base ++ [⟨tid, cfg.timestamp_converter.convert_time e.timestamp,
          e.timestamp,
          (get_sample_stack e.callchain e.cpu_mode e.dwarf e.ip
            cfg.fold_flag).reverse, delta, 1⟩] ∧
      ∃ X, base = st.unresolved_samples ++ X := by
  simp only [Converter.handle_sample]
  rw [if_neg h]
  split <;> (try split) <;> (try split) <;>
    first
      | exact ⟨_, _, rfl, process_off_cpu_sample_group_append _ _ _ _ _ _ _⟩
      | exact ⟨_, _, rfl, [], (List.append_nil _).symm⟩

/-- C1: two sample records on the same thread with the same source
timestamp: the first is enqueued (the queue grows by the new sample, at
the converted timestamp, with weight 1, possibly preceded by synthetic
off-CPU samples), and the second call changes nothing at all. In
particular, feeding `Sample{pid=10, tid=10, ts=1000, ip=0x400500}` twice
into a fresh converter yields exactly one enqueued sample at
`convert(1000)`. -/
theorem handle_sample_duplicate_drop (cfg : ConverterConfig) (tid : Nat)
    (e e2 : SampleEvent) (st : PerThreadConverterState)
    (hts : e2.timestamp = e.timestamp)
    (hfirst : ¬ st.thread.last_sample_timestamp = some e.timestamp) :
    (Converter.handle_sample cfg tid e2 (Converter.handle_sample cfg tid e st) =
      Converter.handle_sample cfg tid e st)
    ∧ (∃ pre s,
        (Converter.handle_sample cfg tid e st).unresolved_samples =
          st.unresolved_samples ++ pre ++ [s] ∧
        s.thread = tid ∧ s.timestamp = e.timestamp ∧
        s.profile_ts = cfg.timestamp_converter.convert_time e.timestamp ∧
        s.weight = 1)
    ∧ (Converter.handle_sample ⟨true, 1, ⟨1000000⟩, ⟨0⟩, false⟩ 10
          ⟨1000, none, StackMode.user, none, some 0x400500, none⟩
          (Converter.handle_sample ⟨true, 1, ⟨1000000⟩, ⟨0⟩, false⟩ 10
            ⟨1000, none, StackMode.user, none, some 0x400500, none⟩
            ⟨⟨10, ThreadContextSwitchData.default, none, none, none⟩, []⟩)
        ).unresolved_samples =
      [⟨10, 1000, 1000, [StackFrame.instructionPointer 0x400500 StackMode.user],
        0, 1⟩] := by
  refine ⟨?_, ?_, by decide⟩
  · have hset := handle_sample_sets_last_sample_timestamp cfg tid e st hfirst
    exact handle_sample_ignores_duplicate cfg tid e2 _ (by rw [hset, hts])
  · obtain ⟨base, delta, hbase, X, hX⟩ :=
      handle_sample_unresolved_shape cfg tid e st hfirst
    refine ⟨X, ⟨tid, cfg.timestamp_converter.convert_time e.timestamp,
      e.timestamp, (get_sample_stack e.callchain e.cpu_mode e.dwarf e.ip
        cfg.fold_flag).reverse, delta, 1⟩, ?_, rfl, rfl, rfl, rfl⟩
    rw [hbase, hX]

/-- Witness for C1: the duplicate-drop theorem applied at the spec's
concrete scenario. -/
theorem handle_sample_duplicate_drop_witness :
    (Converter.handle_sample ⟨true, 1, ⟨1000000⟩, ⟨0⟩, false⟩ 10
          ⟨1000, none, StackMode.user, none, some 0x400500, none⟩
          (Converter.handle_sample ⟨true, 1, ⟨1000000⟩, ⟨0⟩, false⟩ 10
            ⟨1000, none, StackMode.user, none, some 0x400500, none⟩
            ⟨⟨10, ThreadContextSwitchData.default, none, none, none⟩, []⟩)
        ).unresolved_samples =
      [⟨10, 1000, 1000, [StackFrame.instructionPointer 0x400500 StackMode.user],
        0, 1⟩] :=
  (handle_sample_duplicate_drop ⟨true, 1, ⟨1000000⟩, ⟨0⟩, false⟩ 10
    ⟨1000, none, StackMode.user, none, some 0x400500, none⟩
    ⟨1000, none, StackMode.user, none, some 0x400500, none⟩
    ⟨⟨10, ThreadContextSwitchData.default, none, none, none⟩, []⟩
    rfl (by decide)).2.2

/-- `btreeLastLE` returns `none` exactly when no key is `≤ k`. -/
theorem btreeLastLE_eq_none (m : List (Nat × SuspectedPeMapping)) (k : Nat) :
    btreeLastLE m k = none ↔ ∀ e ∈ m, k < e.1 := by
  induction m with
  | nil => simp [btreeLastLE]
  | cons a t ih =>
      rw [btreeLastLE]
      by_cases ha : a.1 ≤ k
      · rw [if_pos ha]
        cases hrec : btreeLastLE t k with
        | some r =>
            constructor
            · intro h; exact Option.noConfusion h
            · intro h; exact absurd (h a (List.mem_cons_self a t)) (by omega)
        | none =>
            constructor
            · intro h; exact Option.noConfusion h
            · intro h; exact absurd (h a (List.mem_cons_self a t)) (by omega)
      · rw [if_neg ha, ih]
        constructor
        · intro h e he
          rcases List.mem_cons.mp he with rfl | he
          · omega
          · exact h e he
        · intro h e he
          exact h e (List.mem_cons_of_mem a he)

/-- On a key-sorted list, `btreeLastLE` returns exactly the entry with the
largest key `≤ k`, when one exists. -/
theorem btreeLastLE_spec (m : List (Nat × SuspectedPeMapping)) (k : Nat) :
    m.Pairwise (fun a b => a.1 < b.1) →
    ∀ pm, (btreeLastLE m k = some pm ↔
      ∃ kk, (kk, pm) ∈ m ∧ kk ≤ k ∧ ∀ e ∈ m, e.1 ≤ k → e.1 ≤ kk) := by
  induction m with
  | nil => intro _ pm; simp [btreeLastLE]
  | cons a t ih =>
      intro hsorted pm
      obtain ⟨hat, hst⟩ := List.pairwise_cons.mp hsorted
      have iht := ih hst
      rw [btreeLastLE]
      by_cases ha : a.1 ≤ k
      · rw [if_pos ha]
        cases hrec : btreeLastLE t k with
        | some r =>
            constructor
            · intro h
              have hpr : r = pm := Option.some.inj h
              subst hpr
              obtain ⟨kk, hkmem, hkk, hkmax⟩ := (iht r).mp hrec
              refine ⟨kk, List.mem_cons_of_mem a hkmem, hkk, ?_⟩
              intro e he hek
              rcases List.mem_cons.mp he with rfl | he
              · have := hat (kk, r) hkmem
                omega
              · exact hkmax e he hek
            · rintro ⟨kk, hkmem, hkk, hkmax⟩
              rcases List.mem_cons.mp hkmem with heq | hkmem_t
              · obtain ⟨kk2, hk2mem, hk2k, _⟩ := (iht r).mp hrec
                have h1 : a.1 < kk2 := hat (kk2, r) hk2mem
                have h2 : kk2 ≤ kk :=
                  hkmax (kk2, r) (List.mem_cons_of_mem a hk2mem) hk2k
                have h3 : kk = a.1 := congrArg Prod.fst heq
                omega
              · have hpm : btreeLastLE t k = some pm :=
                  (iht pm).mpr ⟨kk, hkmem_t, hkk,
                    fun e he hek => hkmax e (List.mem_cons_of_mem a he) hek⟩
                rw [hrec] at hpm
                exact hpm
        | none =>
            have htnone := (btreeLastLE_eq_none t k).mp hrec
            constructor
            · intro h
              have hpa : a.2 = pm := Option.some.inj h
              subst hpa
              refine ⟨a.1, List.mem_cons_self a t, ha, ?_⟩
              intro e he hek
              rcases List.mem_cons.mp he with rfl | he
              · omega
              · exact absurd hek (by have := htnone e he; omega)
            · rintro ⟨kk, hkmem, hkk, hkmax⟩
              rcases List.mem_cons.mp hkmem with heq | hkmem_t
              · have h3 : pm = a.2 := congrArg Prod.snd heq
                rw [h3]
              · exact absurd hkk (by have := htnone (kk, pm) hkmem_t; omega)
      · rw [if_neg ha]
        constructor
        · intro h
          obtain ⟨kk, hkmem, hkk, hkmax⟩ := (iht pm).mp h
          refine ⟨kk, List.mem_cons_of_mem a hkmem, hkk, ?_⟩
          intro e he hek
          rcases List.mem_cons.mp he with rfl | he
          · omega
          · exact hkmax e he hek
        · rintro ⟨kk, hkmem, hkk, hkmax⟩
          rcases List.mem_cons.mp hkmem with heq | hkmem_t
          · have h3 : kk = a.1 := congrArg Prod.fst heq
            omega
          · exact (iht pm).mpr ⟨kk, hkmem_t, hkk,
              fun e he hek => hkmax e (List.mem_cons_of_mem a he) hek⟩

/-- C7: when the mapping's own path cannot be opened, the suspected-PE map
is consulted: the lookup yields the entry with the largest start `≤
mapping_start_avma` exactly when that entry contains the whole mapping
(`mapping_start_avma + mapping_size ≤ entry.start + entry.size`); in that
case (and when the entry's PE file opens) that file is used as the binary
with `base_avma` forced to `entry.start`, overriding the bias computation;
when no entry contains the mapping, no PE substitution occurs (the mapping
is fabricated with no suspected entry). -/
theorem add_module_pe_heuristic (openable : String → Bool)
    (bias : Option Nat) (base_svma : Nat) (own_path : String)
    (m : List (Nat × SuspectedPeMapping)) (mfo avma msize : Nat)
    (hsorted : m.Pairwise fun a b => a.1 < b.1)
    (hkeys : ∀ e ∈ m, e.1 = e.2.start) :
    (∀ pm, find_suspected_pe_mapping m avma msize = some pm ↔
      ((pm.start, pm) ∈ m ∧ pm.start ≤ avma ∧
        (∀ e ∈ m, e.1 ≤ avma → e.1 ≤ pm.start) ∧
        wadd64 avma msize ≤ wadd64 pm.start pm.size))
    ∧ (∀ pm, ¬ openable own_path = true →
        find_suspected_pe_mapping m avma msize = some pm →
        openable pm.path = true →
        add_module_resolution openable bias base_svma own_path m mfo avma
            msize =
          ⟨ModuleBinary.fromFile pm.path pm.start, some pm⟩)
    ∧ (¬ openable own_path = true →
        find_suspected_pe_mapping m avma msize = none →
        add_module_resolution openable bias base_svma own_path m mfo avma
            msize =
          ⟨ModuleBinary.fabricated (wsub64 avma mfo), none⟩) := by
  refine ⟨?_, ?_, ?_⟩
  · intro pm
    constructor
    · intro h
      rw [find_suspected_pe_mapping, Option.filter_eq_some] at h
      obtain ⟨hmem, hp⟩ := h
      have hbt : btreeLastLE m avma = some pm := hmem
      obtain ⟨kk, hkmem, hkk, hkmax⟩ := (btreeLastLE_spec m avma hsorted pm).mp hbt
      have hkeq : kk = pm.start := by
        have := hkeys (kk, pm) hkmem
        simpa using this
      subst hkeq
      simp only [Bool.and_eq_true, decide_eq_true_eq] at hp
      exact ⟨hkmem, hkk, hkmax, hp.2⟩
    · rintro ⟨hmem, hle, hmax, hcont⟩
      have hbt : btreeLastLE m avma = some pm :=
        (btreeLastLE_spec m avma hsorted pm).mpr ⟨pm.start, hmem, hle, hmax⟩
      rw [find_suspected_pe_mapping, Option.filter_eq_some]
      exact ⟨hbt, by simp [hle, hcont]⟩
  · intro pm hop hfind hpe
    simp [add_module_resolution, hop, hfind, hpe]
  · intro hop hfind
    simp [add_module_resolution, hop, hfind]

/-- Witness for C7: the spec's PE-heuristic end-to-end scenario — the
anonymous `.text` mapping of `game.exe` is bound to the PE file with
`base_avma = 0x140000000`. -/
theorem add_module_pe_heuristic_witness :
    add_module_resolution (fun p => p == "game.exe") none 0 "[anon]"
        [(0x140000000, ⟨"game.exe", 0x140000000, 0x4c0c000⟩)]
        0 0x140001000 0x3be7000 =
      ⟨ModuleBinary.fromFile "game.exe" 0x140000000,
        some ⟨"game.exe", 0x140000000, 0x4c0c000⟩⟩ :=
  (add_module_pe_heuristic (fun p => p == "game.exe") none 0 "[anon]"
      [(0x140000000, ⟨"game.exe", 0x140000000, 0x4c0c000⟩)]
      0 0x140001000 0x3be7000 (by simp) (by simp)).2.1
    ⟨"game.exe", 0x140000000, 0x4c0c000⟩ (by decide) (by decide) (by decide)

/-- The last profile timestamp after appending one sample. -/
theorem lastP_concat (l : List UnresolvedSample) (s : UnresolvedSample) :
    lastP (l ++ [s]) = s.profile_ts := by
  simp [lastP, List.getLast?_concat]

/-- The last profile timestamp after appending two samples. -/
theorem lastP_concat_two (l : List UnresolvedSample)
    (s1 s2 : UnresolvedSample) : lastP (l ++ [s1, s2]) = s2.profile_ts := by
  rw [show l ++ [s1, s2] = (l ++ [s1]) ++ [s2] by simp]
  exact lastP_concat _ _

/-- Appending one sample keeps the chain when it respects the bound
against the previous last sample. -/
theorem chain_concat_one (l : List UnresolvedSample) (s : UnresolvedSample)
    (hl : l.Chain' sampleBound)
    (hlink : lastP l + s.cpu_delta_ns ≤ s.profile_ts) :
    (l ++ [s]).Chain' sampleBound := by
  refine hl.append (List.chain'_singleton s) ?_
  intro x hx y hy
  simp only [List.head?_cons, Option.mem_def, Option.some.injEq] at hy
  subst hy
  have hxl : lastP l = x.profile_ts := by
    have hx2 : l.getLast? = some x := Option.mem_def.mp hx
    simp [lastP, hx2]
  show x.profile_ts + s.cpu_delta_ns ≤ s.profile_ts
  omega

/-- Appending two samples keeps the chain when each respects the bound. -/
theorem chain_concat_two (l : List UnresolvedSample)
    (s1 s2 : UnresolvedSample) (hl : l.Chain' sampleBound)
    (h1 : lastP l + s1.cpu_delta_ns ≤ s1.profile_ts)
    (h2 : s1.profile_ts + s2.cpu_delta_ns ≤ s2.profile_ts) :
    (l ++ [s1, s2]).Chain' sampleBound := by
  rw [show l ++ [s1, s2] = (l ++ [s1]) ++ [s2] by simp]
  refine chain_concat_one _ _ (chain_concat_one _ _ hl h1) ?_
  rw [lastP_concat]
  exact h2

/-- The two possible emission shapes of `process_off_cpu_sample_group`. -/
theorem process_off_group_cases (g : OffCpuSampleGroup)
    (th c : Nat) (tc : TimestampConverter) (w : Int)
    (s : List StackFrame) (samples : List UnresolvedSample) :
    (g.sample_count ≤ 1 ∧
      process_off_cpu_sample_group g th c tc w s samples =
        samples ++ [⟨th, tc.convert_time g.begin_timestamp,
          g.begin_timestamp, s, c, w⟩]) ∨
    (1 < g.sample_count ∧
      process_off_cpu_sample_group g th c tc w s samples =
        samples ++ [⟨th, tc.convert_time g.begin_timestamp,
            g.begin_timestamp, s, c, w⟩,
          ⟨th, tc.convert_time g.end_timestamp, g.begin_timestamp, s, 0,
            (if g.sample_count - 1 ≤ I32_MAX
             then ((g.sample_count - 1 : Nat) : Int) else 0) * w⟩]) := by
  by_cases hc : g.sample_count > 1
  · right
    refine ⟨hc, ?_⟩
    simp only [process_off_cpu_sample_group]
    rw [if_pos hc, List.append_assoc]
    rfl
  · left
    refine ⟨by omega, ?_⟩
    simp only [process_off_cpu_sample_group]
    rw [if_neg hc]

/-- `handle_sample` on a thread in the unknown scheduling state (with
context switches): marks it on CPU at `ts` and enqueues one sample
carrying the accumulated (and now consumed) on-CPU time. -/
theorem handle_sample_eq_unknown (cfg : ConverterConfig) (tid : Nat)
    (e : SampleEvent) (st : PerThreadConverterState)
    (hcs : cfg.have_context_switches = true)
    (hdup : ¬ st.thread.last_sample_timestamp = some e.timestamp)
    (hsched : st.thread.context_switch_data.sched = ThreadSchedState.unknown) :
    Converter.handle_sample cfg tid e st =
      ⟨⟨st.thread.profile_thread,
        ⟨ThreadSchedState.onCpu e.timestamp, 0⟩, some e.timestamp, none,
        st.thread.name⟩,
       st.unresolved_samples ++
         [⟨tid, cfg.timestamp_converter.convert_time e.timestamp, e.timestamp,
           (get_sample_stack e.callchain e.cpu_mode e.dwarf e.ip
             cfg.fold_flag).reverse,
           st.thread.context_switch_data.accumulated_on_cpu_ns, 1⟩]⟩ := by
  simp [Converter.handle_sample, ContextSwitchHandler.handle_sample,
    consume_cpu_delta, hdup, hsched, hcs]

/-- `handle_sample` on an on-CPU thread (with context switches): restarts
the on-CPU interval at `ts` and enqueues one sample whose CPU delta adds
the elapsed on-CPU slice to the accumulated time. -/
theorem handle_sample_eq_onCpu (cfg : ConverterConfig) (tid : Nat)
    (e : SampleEvent) (st : PerThreadConverterState) (since : Nat)
    (hcs : cfg.have_context_switches = true)
    (hdup : ¬ st.thread.last_sample_timestamp = some e.timestamp)
    (hsched : st.thread.context_switch_data.sched =
      ThreadSchedState.onCpu since) :
    Converter.handle_sample cfg tid e st =
      ⟨⟨st.thread.profile_thread,
        ⟨ThreadSchedState.onCpu e.timestamp, 0⟩, some e.timestamp, none,
        st.thread.name⟩,
       st.unresolved_samples ++
         [⟨tid, cfg.timestamp_converter.convert_time e.timestamp, e.timestamp,
           (get_sample_stack e.callchain e.cpu_mode e.dwarf e.ip
             cfg.fold_flag).reverse,
           st.thread.context_switch_data.accumulated_on_cpu_ns +
             (e.timestamp - since), 1⟩]⟩ := by
  simp [Converter.handle_sample, ContextSwitchHandler.handle_sample,
    consume_cpu_delta, hdup, hsched, hcs]

/-- A switch-out from the unknown state just marks the thread off CPU. -/
theorem handle_switch_out_eq_unknown (cfg : ConverterConfig) (tid ts : Nat)
    (st : PerThreadConverterState)
    (hsched : st.thread.context_switch_data.sched = ThreadSchedState.unknown) :
    Converter.handle_context_switch cfg tid ContextSwitchRecord.switchOut ts
        st =
      ⟨⟨st.thread.profile_thread,
        ⟨ThreadSchedState.offCpu ts,
          st.thread.context_switch_data.accumulated_on_cpu_ns⟩,
        st.thread.last_sample_timestamp, st.thread.off_cpu_stack,
        st.thread.name⟩,
       st.unresolved_samples⟩ := by
  simp [Converter.handle_context_switch, ContextSwitchHandler.handle_switch_out,
    hsched]

/-- A switch-out from the on-CPU state finalises the on-CPU accumulation
up to `ts` and marks the thread off CPU. -/
theorem handle_switch_out_eq_onCpu (cfg : ConverterConfig) (tid ts : Nat)
    (st : PerThreadConverterState) (since : Nat)
    (hsched : st.thread.context_switch_data.sched =
      ThreadSchedState.onCpu since) :
    Converter.handle_context_switch cfg tid ContextSwitchRecord.switchOut ts
        st =
      ⟨⟨st.thread.profile_thread,
        ⟨ThreadSchedState.offCpu ts,
          st.thread.context_switch_data.accumulated_on_cpu_ns + (ts - since)⟩,
        st.thread.last_sample_timestamp, st.thread.off_cpu_stack,
        st.thread.name⟩,
       st.unresolved_samples⟩ := by
  simp [Converter.handle_context_switch, ContextSwitchHandler.handle_switch_out,
    hsched]

/-- A switch-out while already off CPU changes nothing. -/
theorem handle_switch_out_eq_offCpu (cfg : ConverterConfig) (tid ts : Nat)
    (st : PerThreadConverterState) (start : Nat)
    (hsched : st.thread.context_switch_data.sched =
      ThreadSchedState.offCpu start) :
    Converter.handle_context_switch cfg tid ContextSwitchRecord.switchOut ts
        st = st := by
  simp [Converter.handle_context_switch, ContextSwitchHandler.handle_switch_out,
    hsched]

/-- A switch-in from the unknown state marks the thread on CPU and clears
any saved off-CPU stack. -/
theorem handle_switch_in_eq_unknown (cfg : ConverterConfig) (tid ts : Nat)
    (st : PerThreadConverterState)
    (hsched : st.thread.context_switch_data.sched = ThreadSchedState.unknown) :
    Converter.handle_context_switch cfg tid ContextSwitchRecord.switchIn ts
        st =
      ⟨⟨st.thread.profile_thread,
        ⟨ThreadSchedState.onCpu ts,
          st.thread.context_switch_data.accumulated_on_cpu_ns⟩,
        st.thread.last_sample_timestamp, none, st.thread.name⟩,
       st.unresolved_samples⟩ := by
  simp [Converter.handle_context_switch, ContextSwitchHandler.handle_switch_in,
    hsched]

/-- A switch-in while already on CPU only clears the saved off-CPU
stack. -/
theorem handle_switch_in_eq_onCpu (cfg : ConverterConfig) (tid ts : Nat)
    (st : PerThreadConverterState) (since : Nat)
    (hsched : st.thread.context_switch_data.sched =
      ThreadSchedState.onCpu since) :
    Converter.handle_context_switch cfg tid ContextSwitchRecord.switchIn ts
        st =
      ⟨⟨st.thread.profile_thread, st.thread.context_switch_data,
        st.thread.last_sample_timestamp, none, st.thread.name⟩,
       st.unresolved_samples⟩ := by
  simp [Converter.handle_context_switch, ContextSwitchHandler.handle_switch_in,
    hsched]

/-- A switch-in from the off-CPU state with no completed sampling tick, or
with no saved off-CPU stack, emits nothing: it marks the thread on CPU and
clears the stack. -/
theorem handle_switch_in_eq_off_no_emit (cfg : ConverterConfig)
    (tid ts : Nat) (st : PerThreadConverterState) (start : Nat)
    (hsched : st.thread.context_switch_data.sched =
      ThreadSchedState.offCpu start)
    (hcond : (ts - start) /
        cfg.context_switch_handler.off_cpu_sampling_interval_ns = 0 ∨
      st.thread.off_cpu_stack = none) :
    Converter.handle_context_switch cfg tid ContextSwitchRecord.switchIn ts
        st =
      ⟨⟨st.thread.profile_thread,
        ⟨ThreadSchedState.onCpu ts,
          st.thread.context_switch_data.accumulated_on_cpu_ns⟩,
        st.thread.last_sample_timestamp, none, st.thread.name⟩,
       st.unresolved_samples⟩ := by
  rcases hcond with hticks | hstack
  · simp [Converter.handle_context_switch,
      ContextSwitchHandler.handle_switch_in, hsched, hticks]
  · rcases hticks : (ts - start) /
        cfg.context_switch_handler.off_cpu_sampling_interval_ns with _ | n
    · simp [Converter.handle_context_switch,
        ContextSwitchHandler.handle_switch_in, hsched, hticks]
    · simp [Converter.handle_context_switch,
        ContextSwitchHandler.handle_switch_in, hsched, hticks, hstack]

/-- A switch-in from the off-CPU state with at least one completed tick
and a saved stack consumes the accumulated on-CPU time into the synthetic
off-CPU samples, marks the thread on CPU and clears the stack. -/
theorem handle_switch_in_eq_off_emit (cfg : ConverterConfig) (tid ts : Nat)
    (st : PerThreadConverterState) (start : Nat) (s : List StackFrame)
    (hsched : st.thread.context_switch_data.sched =
      ThreadSchedState.offCpu start)
    (hticks : (ts - start) /
        cfg.context_switch_handler.off_cpu_sampling_interval_ns ≠ 0)
    (hstack : st.thread.off_cpu_stack = some s) :
    Converter.handle_context_switch cfg tid ContextSwitchRecord.switchIn ts
        st =
      ⟨⟨st.thread.profile_thread, ⟨ThreadSchedState.onCpu ts, 0⟩,
        st.thread.last_sample_timestamp, none, st.thread.name⟩,
       process_off_cpu_sample_group
         ⟨start, ts, (ts - start) /
           cfg.context_switch_handler.off_cpu_sampling_interval_ns⟩
         tid st.thread.context_switch_data.accumulated_on_cpu_ns
         cfg.timestamp_converter cfg.off_cpu_weight_per_sample s
         st.unresolved_samples⟩ := by
  simp [Converter.handle_context_switch, ContextSwitchHandler.handle_switch_in,
    consume_cpu_delta, hsched, hticks, hstack]

/-- `handle_sched_switch` as an explicit record update: it only replaces
the saved off-CPU stack. -/
theorem handle_sched_switch_eq (cfg : ConverterConfig) (e : SampleEvent)
    (st : PerThreadConverterState) :
    Converter.handle_sched_switch cfg e st =
      ⟨⟨st.thread.profile_thread, st.thread.context_switch_data,
        st.thread.last_sample_timestamp,
        some (get_sample_stack e.callchain e.cpu_mode e.dwarf e.ip
          cfg.fold_flag).reverse, st.thread.name⟩,
       st.unresolved_samples⟩ := rfl

/-- The scheduling invariant is monotone in the time bound. -/
theorem schedInv_mono (cfg : ConverterConfig) (st : PerThreadConverterState)
    (now t : Nat) (h : schedInv cfg st now) (hle : now ≤ t) :
    schedInv cfg st t := by
  rcases hsc : st.thread.context_switch_data.sched with _ | since | start <;>
    simp only [schedInv, hsc] at h ⊢ <;> omega

/-- One dispatched record preserves the CPU-delta invariant (with context
switches, on a stream where samples only arrive while the thread is not
off CPU). -/
theorem stepThread_inv (cfg : ConverterConfig) (tid : Nat)
    (st : PerThreadConverterState) (ev : ThreadEvent) (now : Nat)
    (hcs : cfg.have_context_switches = true)
    (hinv : ConvInv cfg st now)
    (hts : now ≤ ev.timestamp)
    (hon : ∀ e, ev = ThreadEvent.sample e →
      ∀ start, st.thread.context_switch_data.sched ≠
        ThreadSchedState.offCpu start) :
    ConvInv cfg (stepThread cfg tid st ev) ev.timestamp := by
  obtain ⟨hchain, hlast, href, hsched⟩ := hinv
  cases ev with
  | sample e =>
      simp only [ThreadEvent.timestamp] at hts
      simp only [stepThread, ThreadEvent.timestamp]
      by_cases hdup : st.thread.last_sample_timestamp = some e.timestamp
      · rw [handle_sample_ignores_duplicate cfg tid e st hdup]
        exact ⟨hchain, by omega, by omega,
          schedInv_mono cfg st now e.timestamp hsched hts⟩
      · rcases hsc : st.thread.context_switch_data.sched with _ | since | start
        · have hacc : st.thread.context_switch_data.accumulated_on_cpu_ns = 0 := by
            simpa only [schedInv, hsc] using hsched
          rw [handle_sample_eq_unknown cfg tid e st hcs hdup hsc]
          refine ⟨?_, ?_, by omega, ?_⟩
          · refine chain_concat_one _ _ hchain ?_
            simp only [TimestampConverter.convert_time]
            omega
          · simp only [lastP_concat, TimestampConverter.convert_time]
            omega
          · simp only [schedInv, lastP_concat, TimestampConverter.convert_time]
            omega
        · have hs3 := hsched
          simp only [schedInv, hsc] at hs3
          rw [handle_sample_eq_onCpu cfg tid e st since hcs hdup hsc]
          refine ⟨?_, ?_, by omega, ?_⟩
          · refine chain_concat_one _ _ hchain ?_
            simp only [TimestampConverter.convert_time]
            omega
          · simp only [lastP_concat, TimestampConverter.convert_time]
            omega
          · simp only [schedInv, lastP_concat, TimestampConverter.convert_time]
            omega
        · exact absurd hsc (hon e rfl start)
  | schedSwitch e =>
      simp only [ThreadEvent.timestamp] at hts
      simp only [stepThread, ThreadEvent.timestamp]
      rw [handle_sched_switch_eq cfg e st]
      refine ⟨hchain, by dsimp only; omega, by omega, ?_⟩
      have hmono := schedInv_mono cfg st now e.timestamp hsched hts
      rcases hsc : st.thread.context_switch_data.sched with _ | since | start <;>
        simp only [schedInv, hsc] at hmono ⊢ <;>
        omega
  | contextSwitch dir ts =>
      simp only [ThreadEvent.timestamp] at hts
      simp only [stepThread, ThreadEvent.timestamp]
      cases dir with
      | switchOut =>
          rcases hsc : st.thread.context_switch_data.sched with _ | since | start
          · have hacc : st.thread.context_switch_data.accumulated_on_cpu_ns = 0 := by
              simpa only [schedInv, hsc] using hsched
            rw [handle_switch_out_eq_unknown cfg tid ts st hsc]
            refine ⟨hchain, by dsimp only; omega, by omega, ?_⟩
            simp only [schedInv]
            omega
          · have hs3 := hsched
            simp only [schedInv, hsc] at hs3
            rw [handle_switch_out_eq_onCpu cfg tid ts st since hsc]
            refine ⟨hchain, by dsimp only; omega, by omega, ?_⟩
            simp only [schedInv]
            omega
          · have hs3 := hsched
            simp only [schedInv, hsc] at hs3
            rw [handle_switch_out_eq_offCpu cfg tid ts st start hsc]
            refine ⟨hchain, by omega, by omega, ?_⟩
            simp only [schedInv, hsc]
            omega
      | switchIn =>
          rcases hsc : st.thread.context_switch_data.sched with _ | since | start
          · have hacc : st.thread.context_switch_data.accumulated_on_cpu_ns = 0 := by
              simpa only [schedInv, hsc] using hsched
            rw [handle_switch_in_eq_unknown cfg tid ts st hsc]
            refine ⟨hchain, by dsimp only; omega, by omega, ?_⟩
            simp only [schedInv]
            omega
          · have hs3 := hsched
            simp only [schedInv, hsc] at hs3
            rw [handle_switch_in_eq_onCpu cfg tid ts st since hsc]
            refine ⟨hchain, by dsimp only; omega, by omega, ?_⟩
            simp only [schedInv, hsc]
            omega
          · have hs3 := hsched
            simp only [schedInv, hsc] at hs3
            by_cases hticks : (ts - start) /
                cfg.context_switch_handler.off_cpu_sampling_interval_ns = 0
            · rw [handle_switch_in_eq_off_no_emit cfg tid ts st start hsc
                (Or.inl hticks)]
              refine ⟨hchain, by dsimp only; omega, by omega, ?_⟩
              simp only [schedInv]
              omega
            · rcases hstack : st.thread.off_cpu_stack with _ | s
              · rw [handle_switch_in_eq_off_no_emit cfg tid ts st start hsc
                  (Or.inr hstack)]
                refine ⟨hchain, by dsimp only; omega, by omega, ?_⟩
                simp only [schedInv]
                omega
              · rw [handle_switch_in_eq_off_emit cfg tid ts st start s hsc
                  hticks hstack]
                have hstart_ts : start ≤ ts := by omega
                rcases process_off_group_cases
                    ⟨start, ts, (ts - start) /
                      cfg.context_switch_handler.off_cpu_sampling_interval_ns⟩
                    tid st.thread.context_switch_data.accumulated_on_cpu_ns
                    cfg.timestamp_converter cfg.off_cpu_weight_per_sample s
                    st.unresolved_samples with
                  ⟨hc1, heq⟩ | ⟨hc2, heq⟩
                · refine ⟨?_, ?_, by omega, ?_⟩
                  · show (process_off_cpu_sample_group _ _ _ _ _ _
                        st.unresolved_samples).Chain' sampleBound
                    rw [heq]
                    refine chain_concat_one _ _ hchain ?_
                    simp only [TimestampConverter.convert_time]
                    omega
                  · show lastP (process_off_cpu_sample_group _ _ _ _ _ _
                        st.unresolved_samples) + _ ≤ _
                    rw [heq, lastP_concat]
                    simp only [TimestampConverter.convert_time]
                    omega
                  · simp only [schedInv, heq, lastP_concat,
                      TimestampConverter.convert_time]
                    omega
                · refine ⟨?_, ?_, by omega, ?_⟩
                  · show (process_off_cpu_sample_group _ _ _ _ _ _
                        st.unresolved_samples).Chain' sampleBound
                    rw [heq]
                    refine chain_concat_two _ _ _ hchain ?_ ?_
                    · simp only [TimestampConverter.convert_time]
                      omega
                    · simp only [TimestampConverter.convert_time]
                      omega
                  · show lastP (process_off_cpu_sample_group _ _ _ _ _ _
                        st.unresolved_samples) + _ ≤ _
                    rw [heq, lastP_concat_two]
                    simp only [TimestampConverter.convert_time]
                    omega
                  · simp only [schedInv, heq, lastP_concat_two,
                      TimestampConverter.convert_time]
                    omega

/-- Witness for C10: `attempt_reuse` returns normally on an empty
registry. -/
theorem reuse_pools_never_empty_witness :
    ∃ ps' r,
      Processes.attempt_reuse ⟨[], [], true⟩ 5 "worker" = some (ps', r) ∧
        PoolWF ps'.ended_processes_for_reuse_by_name :=
  reuse_pools_never_empty.2.1 ⟨[], [], true⟩ 5 "worker"
    (fun e he => absurd he (List.not_mem_nil e))

/-- Dispatching a well-formed per-thread stream preserves the chain bound
on the unresolved-samples queue. -/
theorem runThread_inv (cfg : ConverterConfig) (tid : Nat)
    (evs : List ThreadEvent) (st : PerThreadConverterState) (now : Nat)
    (hcs : cfg.have_context_switches = true)
    (hinv : ConvInv cfg st now)
    (hvalid : validFrom cfg tid now st evs = true) :
    (runThread cfg tid st evs).unresolved_samples.Chain' sampleBound := by
  induction evs generalizing st now with
  | nil => exact hinv.1
  | cons ev rest ih =>
      simp only [validFrom, Bool.and_eq_true, decide_eq_true_eq] at hvalid
      obtain ⟨⟨hts, hmatch⟩, hrest⟩ := hvalid
      have hon : ∀ e, ev = ThreadEvent.sample e →
          ∀ start, st.thread.context_switch_data.sched ≠
            ThreadSchedState.offCpu start := by
        intro e he start hsc
        subst he
        rw [hsc] at hmatch
        exact Bool.false_ne_true hmatch
      have hinv2 := stepThread_inv cfg tid st ev now hcs hinv hts hon
      simpa only [runThread, List.foldl_cons] using
        ih (stepThread cfg tid st ev) ev.timestamp hinv2 hrest

/-- **C6** (amended). When the stream has context switches
(`have_context_switches = true`), every sample the converter emits for a
thread has a CPU delta that is non-negative (inherent in `Nat`) and at
most the wall-clock time elapsed since the previous sample emitted on the
same thread: starting from a fresh thread, after any well-formed record
stream, consecutive entries of the unresolved-samples queue satisfy
`prev.profile_ts + cpu_delta_ns ≤ profile_ts`. The claim's extension to
the no-context-switches period fallback is false: the fallback copies the
record's `period` field without bounding it by the elapsed time. -/
theorem cpu_delta_bounded (cfg : ConverterConfig) (tid : Nat)
    (pt : Nat) (nm : Option String) (evs : List ThreadEvent)
    (hcs : cfg.have_context_switches = true)
    (hvalid : validFrom cfg tid cfg.timestamp_converter.reference_ns
      ⟨⟨pt, ThreadContextSwitchData.default, none, none, nm⟩, []⟩
      evs = true) :
    (runThread cfg tid
        ⟨⟨pt, ThreadContextSwitchData.default, none, none, nm⟩, []⟩
        evs).unresolved_samples.Chain' sampleBound := by
  refine runThread_inv cfg tid evs _ _ hcs
    ⟨List.chain'_nil, ?_, Nat.le_refl _, rfl⟩ hvalid
  simp [lastP]

/-- C6 counterexample: without context switches the CPU delta falls back
to the record's `period` field, which is not bounded by the elapsed
wall-clock time. Two admissible samples 1 ns apart, each with period 500,
yield deltas of 500, and `100 + 500 ≤ 101` fails. -/
theorem cpu_delta_period_fallback_counterexample :
    validFrom ⟨false, 1, ⟨1000000⟩, ⟨0⟩, false⟩ 7 0
      ⟨⟨3, ThreadContextSwitchData.default, none, none, none⟩, []⟩
      [ThreadEvent.sample ⟨100, none, StackMode.user, none, some 4096, some 500⟩,
       ThreadEvent.sample ⟨101, none, StackMode.user, none, some 4096, some 500⟩]
      = true ∧
    ((runThread ⟨false, 1, ⟨1000000⟩, ⟨0⟩, false⟩ 7
        ⟨⟨3, ThreadContextSwitchData.default, none, none, none⟩, []⟩
        [ThreadEvent.sample ⟨100, none, StackMode.user, none, some 4096, some 500⟩,
         ThreadEvent.sample ⟨101, none, StackMode.user, none, some 4096, some 500⟩]
      ).unresolved_samples.map fun s => (s.profile_ts, s.cpu_delta_ns)) =
      [(100, 500), (101, 500)] ∧
    ¬ (100 + 500 ≤ 101) :=
  ⟨by decide, by decide, by omega⟩

/-- C6 witness: the spec's off-CPU-expansion scenario (sample at 0,
sched-switch stack at 1000, switch-out at 1000, switch-in at 5 500 000
with a 1 ms off-CPU sampling interval) satisfies the chain bound. -/
theorem cpu_delta_bounded_witness :
    (⟨true, 1, ⟨1000000⟩, ⟨0⟩, false⟩ :
        ConverterConfig).have_context_switches = true ∧
    validFrom ⟨true, 1, ⟨1000000⟩, ⟨0⟩, false⟩ 7
      (⟨true, 1, ⟨1000000⟩, ⟨0⟩, false⟩ :
        ConverterConfig).timestamp_converter.reference_ns
      ⟨⟨3, ThreadContextSwitchData.default, none, none, none⟩, []⟩
      [ThreadEvent.sample ⟨0, none, StackMode.user, none, some 4096, none⟩,
       ThreadEvent.schedSwitch ⟨1000, none, StackMode.user, none,
         some 8192, none⟩,
       ThreadEvent.contextSwitch ContextSwitchRecord.switchOut 1000,
       ThreadEvent.contextSwitch ContextSwitchRecord.switchIn 5500000]
      = true ∧
    (runThread ⟨true, 1, ⟨1000000⟩, ⟨0⟩, false⟩ 7
        ⟨⟨3, ThreadContextSwitchData.default, none, none, none⟩, []⟩
        [ThreadEvent.sample ⟨0, none, StackMode.user, none, some 4096, none⟩,
         ThreadEvent.schedSwitch ⟨1000, none, StackMode.user, none,
           some 8192, none⟩,
         ThreadEvent.contextSwitch ContextSwitchRecord.switchOut 1000,
         ThreadEvent.contextSwitch ContextSwitchRecord.switchIn 5500000]
      ).unresolved_samples.Chain' sampleBound :=
  ⟨rfl, by decide,
   cpu_delta_bounded ⟨true, 1, ⟨1000000⟩, ⟨0⟩, false⟩ 7 3 none
     [ThreadEvent.sample ⟨0, none, StackMode.user, none, some 4096, none⟩,
      ThreadEvent.schedSwitch ⟨1000, none, StackMode.user, none,
        some 8192, none⟩,
      ThreadEvent.contextSwitch ContextSwitchRecord.switchOut 1000,
      ThreadEvent.contextSwitch ContextSwitchRecord.switchIn 5500000]
     rfl (by decide)⟩

end Samply
